import Mathlib

/-!
# FW Profile state machine module: static initialisation (`FwSmSCreate.c`)

A shallow embedding of `FwSmInit` and `FwSmInitDer`.

Memory is modelled as one typed heap region per pointee type.  A pointer is an
optional address into the region of its type, `none` being `NULL`.  Reading or
writing through `NULL`, through an address that is not allocated, or past the
end of an array is undefined behaviour in C; the embedding returns `none` for
it, so every `some` result is a run of the C code without such an access.

The counter type `FwSmCounterS1_t` is a signed integer type.  Counts are
embedded as `Int`; a loop `for (i = lo; i < n; i++)` never increments `i` past
`n`, so no counter arithmetic can overflow and no reduction modulo a word size
is needed.
-/

namespace FwSm

/-! ## Data model -/

/-- A C pointer: `none` is `NULL`, `some a` is address `a` in the heap region of
the pointee type. -/
abbrev Ptr := Option Nat

/-- Values of the function pointer type `FwSmAction_t`: the built-in
`SmDummyAction` and application supplied actions, told apart by an identifier. -/
inductive FwSmAction where
  | SmDummyAction
  | user (id : Nat)
  deriving DecidableEq, Repr

/-- Values of the function pointer type `FwSmGuard_t`: the built-in
`SmDummyGuard` and application supplied guards, told apart by an identifier. -/
inductive FwSmGuard where
  | SmDummyGuard
  | user (id : Nat)
  deriving DecidableEq, Repr

/-- Modelled from the spec: the enumeration `FwSmErrCode_t` is declared in a
header that is not part of the sources at hand.  The two enumerators used by
`FwSmInitDer` keep their names, `smSuccess` is the "no error" value, and
`other` stands for the codes reported by the rest of the module (the spec has
the execution engine report binding errors through the same field). -/
inductive FwSmErrCode where
  | smSuccess
  | smWrongNOfActions
  | smWrongNOfGuards
  | other (code : Nat)
  deriving DecidableEq, Repr

/-- Modelled from the spec: the record `SmPState_t` of a state in `pStates`
(declared in the absent `FwSmPrivate.h`).  The code at hand only names the
cursor `outTransIndex`; the spec lists an identifier and the count of outgoing
transitions beside it. -/
structure SmPState where
  id : Nat
  outTransIndex : Int
  nOfOutTrans : Int
  deriving DecidableEq, Repr

/-- Modelled from the spec: the record `SmCState_t` of a state in `cStates`
(declared in the absent `FwSmPrivate.h`), same shape as `SmPState` plus the
index of its slot among the embedded machines. -/
structure SmCState where
  id : Nat
  outTransIndex : Int
  nOfOutTrans : Int
  iEsm : Int
  deriving DecidableEq, Repr

/-- Modelled from the spec: the record `SmTrans_t` of a transition (declared in
the absent `FwSmPrivate.h`).  The code at hand only names `iTrAction`; the spec
lists identifier, source, destination and an optional guard index beside the
optional action index. -/
structure SmTrans where
  id : Nat
  src : Int
  dest : Int
  iTrGuard : Int
  iTrAction : Int
  deriving DecidableEq, Repr

/-- Modelled from the spec: the table `SmBaseDesc_t` (declared in the absent
`FwSmPrivate.h`) with the six fields the code reads.  The three arrays are held
in the table itself: `FwSmInit` and `FwSmInitDer` reach them only through one
table. -/
structure SmBaseDesc where
  pStates : List SmPState
  cStates : List SmCState
  trans : List SmTrans
  nOfPStates : Int
  nOfCStates : Int
  nOfTrans : Int
  deriving DecidableEq, Repr

/-- The descriptor `struct FwSmDesc` with the fields the code reads or writes
(the declaration is in the absent `FwSmPrivate.h`).  `smBase` points into the
table region, `smActions`, `smGuards` and `esmDesc` point to arrays in the
action, guard and link regions. -/
structure FwSmDesc where
  smBase : Ptr
  smActions : Ptr
  smGuards : Ptr
  nOfActions : Int
  nOfGuards : Int
  esmDesc : Ptr
  transCnt : Int
  curState : Int
  smExecCnt : Nat
  stateExecCnt : Nat
  errCode : FwSmErrCode
  deriving DecidableEq, Repr

/-- The memory: one region per pointee type.  `actions`, `guards` and `links`
hold arrays; an entry `none` of an array is a `NULL` slot. -/
structure Mem where
  descs : List FwSmDesc
  bases : List SmBaseDesc
  actions : List (List (Option FwSmAction))
  guards : List (List (Option FwSmGuard))
  links : List (List Ptr)
  deriving DecidableEq, Repr

/-! ## Memory access -/

/-- Read through a pointer. -/
def deref {α : Type} (heap : List α) : Ptr → Option α
  | none => none
  | some a => heap[a]?

/-- Write through a pointer. -/
def store {α : Type} (heap : List α) (p : Ptr) (v : α) : Option (List α) :=
  match p with
  | none => none
  | some a => if a < heap.length then some (heap.set a v) else none

/-- Read `p[i]` for a pointer `p` to an array. -/
def readAt {α : Type} (heap : List (List α)) (p : Ptr) (i : Nat) : Option α :=
  (deref heap p).bind (fun arr => arr[i]?)

/-- Write `p[i] = v` for a pointer `p` to an array. -/
def writeAt {α : Type} (heap : List (List α)) (p : Ptr) (i : Nat) (v : α) :
    Option (List (List α)) :=
  (deref heap p).bind (fun arr =>
    if i < arr.length then store heap p (arr.set i v) else none)

/-- The loop `for (i = lo; i < lo + n; i++) body`, for a bound that the body
does not change. -/
def forLoop {σ : Type} (body : Nat → σ → Option σ) : Nat → Nat → σ → Option σ
  | _, 0, s => some s
  | i, n + 1, s => (body i s).bind (forLoop body (i + 1) n)

/-! ## Statements of `FwSmSCreate.c` -/

/-- The statement `smBase->pStates[i].outTransIndex = 0`. -/
def setPStateCursor (smBase : Ptr) (i : Nat) (m : Mem) : Option Mem :=
  (deref m.bases smBase).bind (fun t =>
  (t.pStates[i]?).bind (fun s =>
  (store m.bases smBase
      { t with pStates := t.pStates.set i { s with outTransIndex := 0 } }).bind (fun bases =>
  some { m with bases := bases })))

/-- The statement `smBase->cStates[i].outTransIndex = 0`. -/
def setCStateCursor (smBase : Ptr) (i : Nat) (m : Mem) : Option Mem :=
  (deref m.bases smBase).bind (fun t =>
  (t.cStates[i]?).bind (fun s =>
  (store m.bases smBase
      { t with cStates := t.cStates.set i { s with outTransIndex := 0 } }).bind (fun bases =>
  some { m with bases := bases })))

/-- The statement `smBase->trans[i].iTrAction = -1`. -/
def setTransAction (smBase : Ptr) (i : Nat) (m : Mem) : Option Mem :=
  (deref m.bases smBase).bind (fun t =>
  (t.trans[i]?).bind (fun tr =>
  (store m.bases smBase
      { t with trans := t.trans.set i { tr with iTrAction := -1 } }).bind (fun bases =>
  some { m with bases := bases })))

/-- The statement `smDesc->esmDesc[i] = NULL`. -/
def clearLink (smDesc : Ptr) (i : Nat) (m : Mem) : Option Mem :=
  (deref m.descs smDesc).bind (fun d =>
  (writeAt m.links d.esmDesc i none).bind (fun links =>
  some { m with links := links }))

/-- The statement `smDesc->smActions[i] = v`. -/
def setAction (smDesc : Ptr) (i : Nat) (v : Option FwSmAction) (m : Mem) : Option Mem :=
  (deref m.descs smDesc).bind (fun d =>
  (writeAt m.actions d.smActions i v).bind (fun actions =>
  some { m with actions := actions }))

/-- The statement `smDesc->smGuards[i] = v`. -/
def setGuard (smDesc : Ptr) (i : Nat) (v : Option FwSmGuard) (m : Mem) : Option Mem :=
  (deref m.descs smDesc).bind (fun d =>
  (writeAt m.guards d.smGuards i v).bind (fun guards =>
  some { m with guards := guards }))

/-- The statement `smDesc->smActions[i] = smDescBase->smActions[i]`. -/
def copyAction (smDesc smDescBase : Ptr) (i : Nat) (m : Mem) : Option Mem :=
  (deref m.descs smDescBase).bind (fun db =>
  (readAt m.actions db.smActions i).bind (fun v =>
  setAction smDesc i v m))

/-- The statement `smDesc->smGuards[i] = smDescBase->smGuards[i]`. -/
def copyGuard (smDesc smDescBase : Ptr) (i : Nat) (m : Mem) : Option Mem :=
  (deref m.descs smDescBase).bind (fun db =>
  (readAt m.guards db.smGuards i).bind (fun v =>
  setGuard smDesc i v m))

/-- A write to fields of the descriptor `*smDesc`. -/
def updDesc (smDesc : Ptr) (f : FwSmDesc → FwSmDesc) (m : Mem) : Option Mem :=
  (deref m.descs smDesc).bind (fun d =>
  (store m.descs smDesc (f d)).bind (fun descs =>
  some { m with descs := descs }))

/-! ## The two functions -/

/-- The function `FwSmInit(smDesc)`.  The loop bounds `smBase->nOfPStates`,
`smBase->nOfCStates`, `smBase->nOfTrans`, `smDesc->nOfActions` and
`smDesc->nOfGuards` are read once: no statement of the function writes them. -/
def FwSmInit (smDesc : Ptr) (m : Mem) : Option Mem :=
  (deref m.descs smDesc).bind (fun d =>
  let smBase := d.smBase
  (deref m.bases smBase).bind (fun t =>
  (forLoop (fun i m => (setPStateCursor smBase i m).bind (clearLink smDesc i))
      0 t.nOfPStates.toNat m).bind (fun m =>
  (forLoop (setCStateCursor smBase) 0 t.nOfCStates.toNat m).bind (fun m =>
  (forLoop (setTransAction smBase) 0 t.nOfTrans.toNat m).bind (fun m =>
  (setAction smDesc 0 (some FwSmAction.SmDummyAction) m).bind (fun m =>
  (forLoop (fun i => setAction smDesc i none) 1 (d.nOfActions - 1).toNat m).bind (fun m =>
  (setGuard smDesc 0 (some FwSmGuard.SmDummyGuard) m).bind (fun m =>
  forLoop (fun i => setGuard smDesc i none) 1 (d.nOfGuards - 1).toNat m))))))))

/-- The function `FwSmInitDer(smDesc, smDescBase)`.  The loop bounds are read
once, as in `FwSmInit`; the five closing assignments write five fields of
`*smDesc`, the first from `smDescBase->errCode` as it is at that point. -/
def FwSmInitDer (smDesc smDescBase : Ptr) (m : Mem) : Option Mem :=
  (deref m.descs smDescBase).bind (fun db =>
  let smBase := db.smBase
  (deref m.descs smDesc).bind (fun dc =>
  if dc.nOfActions ≠ db.nOfActions then
    updDesc smDesc (fun d => { d with errCode := FwSmErrCode.smWrongNOfActions }) m
  else if dc.nOfGuards ≠ db.nOfGuards then
    updDesc smDesc (fun d => { d with errCode := FwSmErrCode.smWrongNOfGuards }) m
  else
    (updDesc smDesc (fun d => { d with smBase := smBase }) m).bind (fun m =>
    (forLoop (copyAction smDesc smDescBase) 0 dc.nOfActions.toNat m).bind (fun m =>
    (forLoop (copyGuard smDesc smDescBase) 0 dc.nOfGuards.toNat m).bind (fun m =>
    (deref m.bases smBase).bind (fun t =>
    (forLoop (clearLink smDesc) 0 t.nOfPStates.toNat m).bind (fun m =>
    (deref m.descs smDescBase).bind (fun db2 =>
    updDesc smDesc (fun d =>
      { d with errCode := db2.errCode, smExecCnt := 0, stateExecCnt := 0,
               transCnt := 0, curState := 0 }) m))))))))

/-! ## Sample memories -/

/-- A table with two states in `pStates`, one in `cStates` and one transition,
with cursors and bindings left over from earlier use. -/
def tbl0 : SmBaseDesc :=
  { pStates := [⟨1, 5, 1⟩, ⟨2, 7, 0⟩],
    cStates := [⟨3, 4, 2, 0⟩],
    trans := [⟨1, 1, 2, 1, 1⟩],
    nOfPStates := 2, nOfCStates := 1, nOfTrans := 1 }

/-- A descriptor bound to table 0 that has been configured and executed. -/
def desc0 : FwSmDesc :=
  { smBase := some 0, smActions := some 0, smGuards := some 0, nOfActions := 2,
    nOfGuards := 2, esmDesc := some 0, transCnt := 3, curState := 2, smExecCnt := 9,
    stateExecCnt := 4, errCode := FwSmErrCode.other 7 }

/-- An unbound descriptor of the same sizes as `desc0`. -/
def desc1 : FwSmDesc :=
  { smBase := none, smActions := some 1, smGuards := some 1, nOfActions := 2,
    nOfGuards := 2, esmDesc := some 1, transCnt := 5, curState := 1, smExecCnt := 6,
    stateExecCnt := 2, errCode := FwSmErrCode.smSuccess }

/-- An unbound descriptor with one action slot more than `desc0`. -/
def desc2 : FwSmDesc :=
  { smBase := none, smActions := some 2, smGuards := some 2, nOfActions := 3,
    nOfGuards := 2, esmDesc := some 2, transCnt := 5, curState := 1, smExecCnt := 6,
    stateExecCnt := 2, errCode := FwSmErrCode.smSuccess }

/-- An unbound descriptor with as many action slots as `desc0` and one guard
slot more. -/
def desc3 : FwSmDesc :=
  { smBase := none, smActions := some 3, smGuards := some 3, nOfActions := 2,
    nOfGuards := 3, esmDesc := some 3, transCnt := 5, curState := 1, smExecCnt := 6,
    stateExecCnt := 2, errCode := FwSmErrCode.smSuccess }

/-- The action array of `desc0`. -/
def acts0 : List (Option FwSmAction) := [some (FwSmAction.user 8), some (FwSmAction.user 9)]

/-- The action array of `desc1`. -/
def acts1 : List (Option FwSmAction) := [some (FwSmAction.user 3), none]

/-- The guard array of `desc0`. -/
def grds0 : List (Option FwSmGuard) := [some (FwSmGuard.user 8), some (FwSmGuard.user 9)]

/-- The guard array of `desc1`. -/
def grds1 : List (Option FwSmGuard) := [none, some (FwSmGuard.user 4)]

/-- The link array of `desc0`. -/
def lks0 : List Ptr := [some 1, some 1]

/-- The link array of `desc1`. -/
def lks1 : List Ptr := [some 0, some 0]

/-- A memory with one table and four descriptors, each with its own action,
guard and link arrays. -/
def mem0 : Mem :=
  { descs := [desc0, desc1, desc2, desc3],
    bases := [tbl0],
    actions := [acts0, acts1, [none, none, none], [none, none]],
    guards := [grds0, grds1, [none, none], [none, none, none]],
    links := [lks0, lks1, [none, none], [none, none]] }

/-- A table with one state in `pStates`, two in `cStates` and no transition. -/
def tbl1 : SmBaseDesc :=
  { pStates := [⟨1, 0, 0⟩],
    cStates := [⟨2, 0, 0, 0⟩, ⟨3, 0, 0, 1⟩],
    trans := [],
    nOfPStates := 1, nOfCStates := 2, nOfTrans := 0 }

/-- A descriptor bound to `tbl1` whose link array has two slots, both set. -/
def desc4 : FwSmDesc :=
  { smBase := some 0, smActions := some 0, smGuards := some 0, nOfActions := 1,
    nOfGuards := 1, esmDesc := some 0, transCnt := 0, curState := 0, smExecCnt := 0,
    stateExecCnt := 0, errCode := FwSmErrCode.smSuccess }

/-- An unbound descriptor of the same sizes as `desc4` whose link array has two
slots, both set. -/
def desc5 : FwSmDesc :=
  { smBase := none, smActions := some 1, smGuards := some 1, nOfActions := 1,
    nOfGuards := 1, esmDesc := some 1, transCnt := 0, curState := 0, smExecCnt := 0,
    stateExecCnt := 0, errCode := FwSmErrCode.smSuccess }

/-- The action array of `desc4`. -/
def acts4 : List (Option FwSmAction) := [some FwSmAction.SmDummyAction]

/-- The action array of `desc5`. -/
def acts5 : List (Option FwSmAction) := [none]

/-- The guard array of `desc4`. -/
def grds4 : List (Option FwSmGuard) := [some FwSmGuard.SmDummyGuard]

/-- The guard array of `desc5`. -/
def grds5 : List (Option FwSmGuard) := [none]

/-- The link array of `desc4`: two slots, both set. -/
def lks4 : List Ptr := [some 1, some 1]

/-- The link array of `desc5`: two slots, both set. -/
def lks5 : List Ptr := [some 0, some 0]

/-- A memory with the table `tbl1` and the descriptors `desc4` and `desc5`. -/
def mem1 : Mem :=
  { descs := [desc4, desc5],
    bases := [tbl1],
    actions := [acts4, acts5],
    guards := [grds4, grds5],
    links := [lks4, lks5] }

/-- The table `tbl0` after `FwSmInit`. -/
def tbl0i : SmBaseDesc :=
  { pStates := [⟨1, 0, 1⟩, ⟨2, 0, 0⟩],
    cStates := [⟨3, 0, 2, 0⟩],
    trans := [⟨1, 1, 2, 1, -1⟩],
    nOfPStates := 2, nOfCStates := 1, nOfTrans := 1 }

/-- The action array of `desc0` after `FwSmInit`. -/
def acts0i : List (Option FwSmAction) := [some FwSmAction.SmDummyAction, none]

/-- The guard array of `desc0` after `FwSmInit`. -/
def grds0i : List (Option FwSmGuard) := [some FwSmGuard.SmDummyGuard, none]

/-- The link array of `desc0` after `FwSmInit`. -/
def lks0i : List Ptr := [none, none]

/-- The memory `mem0` after `FwSmInit` on `desc0`. -/
def mem0i : Mem :=
  { descs := [desc0, desc1, desc2, desc3],
    bases := [tbl0i],
    actions := [acts0i, acts1, [none, none, none], [none, none]],
    guards := [grds0i, grds1, [none, none], [none, none, none]],
    links := [lks0i, lks1, [none, none], [none, none]] }

/-- The array `xs` with `g q` applied to the entry at every index `q` with
`lo ≤ q < hi`: what a loop over that index range leaves behind. -/
def patchRange {α : Type} (g : Nat → α → α) (lo hi : Nat) (xs : List α) : List α :=
  xs.mapIdx (fun q x => if lo ≤ q ∧ q < hi then g q x else x)

/-- The region `heap` after a successful write of `v` through `p`. -/
def setAt {α : Type} (heap : List α) (p : Ptr) (v : α) : List α :=
  match p with
  | none => heap
  | some a => heap.set a v

/-- Structural validity of the memory for `FwSmInit(smDesc)`: `smDesc` points to
the descriptor `d`, whose `smBase` points to the table `t` and whose
`smActions`, `smGuards` and `esmDesc` point to the arrays `acts`, `grds` and
`lks`; the arrays of the table are as long as its counts say, the link array
has a slot for every index below `nOfPStates`, and the action and the guard
array have a slot 0 and are as long as `nOfActions` and `nOfGuards` say. -/
structure InitValid (smDesc : Ptr) (m : Mem) (d : FwSmDesc) (t : SmBaseDesc)
    (acts : List (Option FwSmAction)) (grds : List (Option FwSmGuard))
    (lks : List Ptr) : Prop where
  desc : deref m.descs smDesc = some d
  base : deref m.bases d.smBase = some t
  actions : deref m.actions d.smActions = some acts
  guards : deref m.guards d.smGuards = some grds
  links : deref m.links d.esmDesc = some lks
  pStates_len : t.nOfPStates ≤ t.pStates.length
  cStates_len : t.nOfCStates ≤ t.cStates.length
  trans_len : t.nOfTrans ≤ t.trans.length
  links_len : t.nOfPStates ≤ lks.length
  actions_pos : 0 < acts.length
  actions_len : d.nOfActions ≤ acts.length
  guards_pos : 0 < grds.length
  guards_len : d.nOfGuards ≤ grds.length

/-- The table `t` as `FwSmInit` leaves it. -/
def initTable (t : SmBaseDesc) : SmBaseDesc :=
  { t with
    pStates := patchRange (fun _ s => { s with outTransIndex := 0 }) 0 t.nOfPStates.toNat
      t.pStates,
    cStates := patchRange (fun _ s => { s with outTransIndex := 0 }) 0 t.nOfCStates.toNat
      t.cStates,
    trans := patchRange (fun _ tr => { tr with iTrAction := -1 }) 0 t.nOfTrans.toNat
      t.trans }

/-- The memory as `FwSmInit` leaves it, for a descriptor `d` with table `t` and
arrays `acts`, `grds` and `lks`. -/
def initMem (m : Mem) (d : FwSmDesc) (t : SmBaseDesc) (acts : List (Option FwSmAction))
    (grds : List (Option FwSmGuard)) (lks : List Ptr) : Mem :=
  { m with
    bases := setAt m.bases d.smBase (initTable t),
    links := setAt m.links d.esmDesc
      (patchRange (fun _ _ => none) 0 t.nOfPStates.toNat lks),
    actions := setAt m.actions d.smActions
      (patchRange (fun _ _ => none) 1 (1 + (d.nOfActions - 1).toNat)
        (acts.set 0 (some FwSmAction.SmDummyAction))),
    guards := setAt m.guards d.smGuards
      (patchRange (fun _ _ => none) 1 (1 + (d.nOfGuards - 1).toNat)
        (grds.set 0 (some FwSmGuard.SmDummyGuard))) }

/-- Structural validity of the memory for a call `FwSmInitDer(smDesc, smDescBase)`
that passes both size checks: `smDesc` and `smDescBase` point to the
descriptors `dc` and `db`, the `smBase` of `db` points to the table `t`, the
action and guard arrays of both descriptors are as long as their counts say,
and the link array `lks` of `dc` has a slot for every index below the
`nOfPStates` of `t`. -/
structure DerValid (smDesc smDescBase : Ptr) (m : Mem) (dc db : FwSmDesc) (t : SmBaseDesc)
    (cacts bacts : List (Option FwSmAction)) (cgrds bgrds : List (Option FwSmGuard))
    (lks : List Ptr) : Prop where
  cand : deref m.descs smDesc = some dc
  base : deref m.descs smDescBase = some db
  table : deref m.bases db.smBase = some t
  candActions : deref m.actions dc.smActions = some cacts
  baseActions : deref m.actions db.smActions = some bacts
  candGuards : deref m.guards dc.smGuards = some cgrds
  baseGuards : deref m.guards db.smGuards = some bgrds
  links : deref m.links dc.esmDesc = some lks
  candActions_len : dc.nOfActions ≤ cacts.length
  baseActions_len : db.nOfActions ≤ bacts.length
  candGuards_len : dc.nOfGuards ≤ cgrds.length
  baseGuards_len : db.nOfGuards ≤ bgrds.length
  links_len : t.nOfPStates ≤ lks.length

/-- The memory as a call `FwSmInitDer(smDesc, smDescBase)` that passes both size
checks leaves it. -/
def derMem (smDesc : Ptr) (m : Mem) (dc db : FwSmDesc) (t : SmBaseDesc)
    (cacts bacts : List (Option FwSmAction)) (cgrds bgrds : List (Option FwSmGuard))
    (lks : List Ptr) : Mem :=
  { m with
    descs := setAt m.descs smDesc
      { dc with smBase := db.smBase, errCode := db.errCode, smExecCnt := 0,
                stateExecCnt := 0, transCnt := 0, curState := 0 },
    actions := setAt m.actions dc.smActions
      (patchRange (fun q x => (bacts[q]?).getD x) 0 dc.nOfActions.toNat cacts),
    guards := setAt m.guards dc.smGuards
      (patchRange (fun q x => (bgrds[q]?).getD x) 0 dc.nOfGuards.toNat cgrds),
    links := setAt m.links dc.esmDesc
      (patchRange (fun _ _ => none) 0 t.nOfPStates.toNat lks) }

/-- Structural validity as the spec words it for `FwSmInit(smDesc)`: `smDesc`
points to the descriptor `d`, whose `smBase` points to the table `t` and whose
`smActions`, `smGuards` and `esmDesc` point to the arrays `acts`, `grds` and
`lks`; `acts` has `nOfActions` entries and `grds` has `nOfGuards` entries, the
arrays of the table have `nOfPStates`, `nOfCStates` and `nOfTrans` entries, and
`lks` has at least `nOfPStates` entries.  That the two counts of the
descriptor are positive is left out, to be stated where it matters. -/
structure SizedAsDeclared (smDesc : Ptr) (m : Mem) (d : FwSmDesc) (t : SmBaseDesc)
    (acts : List (Option FwSmAction)) (grds : List (Option FwSmGuard))
    (lks : List Ptr) : Prop where
  desc : deref m.descs smDesc = some d
  base : deref m.bases d.smBase = some t
  actions : deref m.actions d.smActions = some acts
  guards : deref m.guards d.smGuards = some grds
  links : deref m.links d.esmDesc = some lks
  pStates_len : (t.pStates.length : Int) = t.nOfPStates
  cStates_len : (t.cStates.length : Int) = t.nOfCStates
  trans_len : (t.trans.length : Int) = t.nOfTrans
  links_len : t.nOfPStates ≤ lks.length
  actions_len : (acts.length : Int) = d.nOfActions
  guards_len : (grds.length : Int) = d.nOfGuards

/-! ## Lemmas on memory access -/

theorem getElem?_patchRange {α : Type} (g : Nat → α → α) (lo hi q : Nat) (xs : List α) :
    (patchRange g lo hi xs)[q]? =
      (xs[q]?).map (fun x => if lo ≤ q ∧ q < hi then g q x else x) := by
  simp [patchRange]

theorem length_patchRange {α : Type} (g : Nat → α → α) (lo hi : Nat) (xs : List α) :
    (patchRange g lo hi xs).length = xs.length := by
  simp [patchRange]

theorem patchRange_empty {α : Type} (g : Nat → α → α) {lo hi : Nat} (h : hi ≤ lo)
    (xs : List α) : patchRange g lo hi xs = xs := by
  apply List.ext_getElem?
  intro q
  rw [getElem?_patchRange]
  have hq : ¬ (lo ≤ q ∧ q < hi) := by omega
  simp [hq]

theorem patchRange_step {α : Type} (g : Nat → α → α) {lo j : Nat} (hj : lo ≤ j)
    {xs : List α} {x : α} (hx : xs[j]? = some x) :
    (patchRange g lo j xs).set j (g j x) = patchRange g lo (j + 1) xs := by
  apply List.ext_getElem?
  intro q
  have hlen : j < xs.length := by
    rcases Nat.lt_or_ge j xs.length with h | h
    · exact h
    · rw [List.getElem?_eq_none h] at hx
      cases hx
  rw [List.getElem?_set, getElem?_patchRange, getElem?_patchRange, length_patchRange]
  by_cases hq : j = q
  · subst hq
    simp [hx, hj, hlen]
  · have hiff : (lo ≤ q ∧ q < j + 1) ↔ (lo ≤ q ∧ q < j) := by omega
    simp [hq, hiff]

theorem set_eq_self_of_getElem? {α : Type} {xs : List α} {a : Nat} {x : α}
    (h : xs[a]? = some x) : xs.set a x = xs := by
  apply List.ext_getElem?
  intro q
  rw [List.getElem?_set]
  by_cases hq : a = q
  · subst hq
    have hlen : a < xs.length := by
      rcases Nat.lt_or_ge a xs.length with h1 | h1
      · exact h1
      · rw [List.getElem?_eq_none h1] at h
        cases h
    simp [h, hlen]
  · simp [hq]

theorem lt_length_of_getElem? {α : Type} {xs : List α} {a : Nat} {x : α}
    (h : xs[a]? = some x) : a < xs.length := by
  rcases Nat.lt_or_ge a xs.length with h1 | h1
  · exact h1
  · rw [List.getElem?_eq_none h1] at h
    cases h

theorem forLoop_closed {σ : Type} (body : Nat → σ → Option σ) (F : Nat → σ) :
    ∀ (n i : Nat), (∀ j, i ≤ j → j < i + n → body j (F j) = some (F (j + 1))) →
      forLoop body i n (F i) = some (F (i + n)) := by
  intro n
  induction n with
  | zero => intro i _; rfl
  | succ n ih =>
    intro i h
    have h0 : body i (F i) = some (F (i + 1)) := h i (Nat.le_refl i) (by omega)
    have h1 := ih (i + 1) (fun j hj1 hj2 => h j (by omega) (by omega))
    simp only [forLoop, h0, Option.some_bind, h1]
    congr 2
    omega

theorem writeAt_set {α : Type} (heap : List (List α)) {a : Nat} (ha : a < heap.length)
    {arr : List α} {i : Nat} (hi : i < arr.length) (v : α) :
    writeAt (heap.set a arr) (some a) i v = some (heap.set a (arr.set i v)) := by
  simp [writeAt, deref, store, ha, hi, List.set_set]

theorem readAt_set_same {α : Type} (heap : List (List α)) {a : Nat} (ha : a < heap.length)
    (arr : List α) (i : Nat) :
    readAt (heap.set a arr) (some a) i = arr[i]? := by
  simp [readAt, deref, ha]

theorem readAt_set_other {α : Type} (heap : List (List α)) {a b : Nat} (hab : a ≠ b)
    (arr : List α) (i : Nat) :
    readAt (heap.set a arr) (some b) i = readAt heap (some b) i := by
  simp [readAt, deref, hab]

/-! ## Closed forms of the loops -/

theorem forLoop_setAction (m : Mem) {ad aa : Nat} {d : FwSmDesc}
    {acts : List (Option FwSmAction)} (hd : m.descs[ad]? = some d)
    (hp : d.smActions = some aa) (ha : m.actions[aa]? = some acts) (lo n : Nat)
    (hn : lo + n ≤ acts.length) :
    forLoop (fun i => setAction (some ad) i none) lo n m =
      some { m with actions :=
              m.actions.set aa (patchRange (fun _ _ => none) lo (lo + n) acts) } := by
  have haa := lt_length_of_getElem? ha
  have key := forLoop_closed (fun i => setAction (some ad) i none)
    (fun j => { m with actions :=
                  m.actions.set aa (patchRange (fun _ _ => none) lo j acts) }) n lo
    (by
      intro j hj1 hj2
      have hj : j < acts.length := by omega
      have hx : acts[j]? = some acts[j] := List.getElem?_eq_getElem hj
      simp only [setAction, deref, hd, hp, Option.some_bind]
      rw [writeAt_set _ haa (by rw [length_patchRange]; exact hj)]
      simp only [Option.some_bind]
      rw [patchRange_step (fun _ _ => none) hj1 hx])
  simp only [patchRange_empty _ (Nat.le_refl lo), set_eq_self_of_getElem? ha] at key
  exact key

theorem forLoop_setGuard (m : Mem) {ad ag : Nat} {d : FwSmDesc}
    {grds : List (Option FwSmGuard)} (hd : m.descs[ad]? = some d)
    (hp : d.smGuards = some ag) (hg : m.guards[ag]? = some grds) (lo n : Nat)
    (hn : lo + n ≤ grds.length) :
    forLoop (fun i => setGuard (some ad) i none) lo n m =
      some { m with guards :=
              m.guards.set ag (patchRange (fun _ _ => none) lo (lo + n) grds) } := by
  have hag := lt_length_of_getElem? hg
  have key := forLoop_closed (fun i => setGuard (some ad) i none)
    (fun j => { m with guards :=
                  m.guards.set ag (patchRange (fun _ _ => none) lo j grds) }) n lo
    (by
      intro j hj1 hj2
      have hj : j < grds.length := by omega
      have hx : grds[j]? = some grds[j] := List.getElem?_eq_getElem hj
      simp only [setGuard, deref, hd, hp, Option.some_bind]
      rw [writeAt_set _ hag (by rw [length_patchRange]; exact hj)]
      simp only [Option.some_bind]
      rw [patchRange_step (fun _ _ => none) hj1 hx])
  simp only [patchRange_empty _ (Nat.le_refl lo), set_eq_self_of_getElem? hg] at key
  exact key

theorem forLoop_clearLink (m : Mem) {ad al : Nat} {d : FwSmDesc} {lks : List Ptr}
    (hd : m.descs[ad]? = some d) (hp : d.esmDesc = some al)
    (hl : m.links[al]? = some lks) (n : Nat) (hn : n ≤ lks.length) :
    forLoop (clearLink (some ad)) 0 n m =
      some { m with links :=
              m.links.set al (patchRange (fun _ _ => none) 0 n lks) } := by
  have hal := lt_length_of_getElem? hl
  have key := forLoop_closed (clearLink (some ad))
    (fun j => { m with links :=
                  m.links.set al (patchRange (fun _ _ => none) 0 j lks) }) n 0
    (by
      intro j hj1 hj2
      have hj : j < lks.length := by omega
      have hx : lks[j]? = some lks[j] := List.getElem?_eq_getElem hj
      simp only [clearLink, deref, hd, hp, Option.some_bind]
      rw [writeAt_set _ hal (by rw [length_patchRange]; exact hj)]
      simp only [Option.some_bind]
      rw [patchRange_step (fun _ _ => none) hj1 hx])
  simp only [patchRange_empty _ (Nat.le_refl 0), set_eq_self_of_getElem? hl,
    Nat.zero_add] at key
  exact key

theorem forLoop_setCStateCursor (m : Mem) {ab : Nat} {t : SmBaseDesc}
    (ht : m.bases[ab]? = some t) (n : Nat) (hn : n ≤ t.cStates.length) :
    forLoop (setCStateCursor (some ab)) 0 n m =
      some { m with
        bases := m.bases.set ab
          { t with cStates :=
              patchRange (fun _ s => { s with outTransIndex := 0 }) 0 n t.cStates } } := by
  have hab := lt_length_of_getElem? ht
  have key := forLoop_closed (setCStateCursor (some ab))
    (fun j => { m with
        bases := m.bases.set ab
          { t with cStates :=
              patchRange (fun _ s => { s with outTransIndex := 0 }) 0 j t.cStates } })
    n 0
    (by
      intro j hj1 hj2
      have hj : j < t.cStates.length := by omega
      have hx : t.cStates[j]? = some t.cStates[j] := List.getElem?_eq_getElem hj
      simp only [setCStateCursor, deref, store, List.getElem?_set_self hab,
        Option.some_bind, getElem?_patchRange, hx, Option.map_some', List.length_set, hab,
        if_true, List.set_set]
      have hcond : ¬ (0 ≤ j ∧ j < j) := by omega
      simp only [hcond, if_false]
      rw [patchRange_step (fun _ (s : SmCState) => { s with outTransIndex := 0 }) hj1 hx])
  simp only [patchRange_empty _ (Nat.le_refl 0), set_eq_self_of_getElem? ht,
    Nat.zero_add] at key
  exact key

theorem forLoop_setTransAction (m : Mem) {ab : Nat} {t : SmBaseDesc}
    (ht : m.bases[ab]? = some t) (n : Nat) (hn : n ≤ t.trans.length) :
    forLoop (setTransAction (some ab)) 0 n m =
      some { m with
        bases := m.bases.set ab
          { t with trans :=
              patchRange (fun _ tr => { tr with iTrAction := -1 }) 0 n t.trans } } := by
  have hab := lt_length_of_getElem? ht
  have key := forLoop_closed (setTransAction (some ab))
    (fun j => { m with
        bases := m.bases.set ab
          { t with trans :=
              patchRange (fun _ tr => { tr with iTrAction := -1 }) 0 j t.trans } })
    n 0
    (by
      intro j hj1 hj2
      have hj : j < t.trans.length := by omega
      have hx : t.trans[j]? = some t.trans[j] := List.getElem?_eq_getElem hj
      simp only [setTransAction, deref, store, List.getElem?_set_self hab,
        Option.some_bind, getElem?_patchRange, hx, Option.map_some', List.length_set, hab,
        if_true, List.set_set]
      have hcond : ¬ (0 ≤ j ∧ j < j) := by omega
      simp only [hcond, if_false]
      rw [patchRange_step (fun _ (tr : SmTrans) => { tr with iTrAction := -1 }) hj1 hx])
  simp only [patchRange_empty _ (Nat.le_refl 0), set_eq_self_of_getElem? ht,
    Nat.zero_add] at key
  exact key

theorem forLoop_pStates_links (m : Mem) {ad ab al : Nat} {d : FwSmDesc} {t : SmBaseDesc}
    {lks : List Ptr} (hd : m.descs[ad]? = some d) (ht : m.bases[ab]? = some t)
    (hp : d.esmDesc = some al) (hl : m.links[al]? = some lks) (n : Nat)
    (hn : n ≤ t.pStates.length) (hn2 : n ≤ lks.length) :
    forLoop (fun i m => (setPStateCursor (some ab) i m).bind (clearLink (some ad) i)) 0 n m =
      some { m with
        bases := m.bases.set ab
          { t with pStates :=
              patchRange (fun _ s => { s with outTransIndex := 0 }) 0 n t.pStates },
        links := m.links.set al (patchRange (fun _ _ => none) 0 n lks) } := by
  have hab := lt_length_of_getElem? ht
  have hal := lt_length_of_getElem? hl
  have key := forLoop_closed
    (fun i m => (setPStateCursor (some ab) i m).bind (clearLink (some ad) i))
    (fun j => { m with
        bases := m.bases.set ab
          { t with pStates :=
              patchRange (fun _ s => { s with outTransIndex := 0 }) 0 j t.pStates },
        links := m.links.set al (patchRange (fun _ _ => none) 0 j lks) })
    n 0
    (by
      intro j hj1 hj2
      have hj : j < t.pStates.length := by omega
      have hjl : j < lks.length := by omega
      have hx : t.pStates[j]? = some t.pStates[j] := List.getElem?_eq_getElem hj
      have hxl : lks[j]? = some lks[j] := List.getElem?_eq_getElem hjl
      simp only [setPStateCursor, deref, store, List.getElem?_set_self hab,
        Option.some_bind, getElem?_patchRange, hx, Option.map_some', List.length_set, hab,
        if_true, List.set_set]
      have hcond : ¬ (0 ≤ j ∧ j < j) := by omega
      simp only [hcond, if_false]
      rw [patchRange_step (fun _ (s : SmPState) => { s with outTransIndex := 0 }) hj1 hx]
      simp only [clearLink, deref, hd, hp, Option.some_bind]
      rw [writeAt_set _ hal (by rw [length_patchRange]; exact hjl)]
      simp only [Option.some_bind]
      rw [patchRange_step (fun _ _ => none) hj1 hxl])
  simp only [patchRange_empty _ (Nat.le_refl 0), set_eq_self_of_getElem? ht,
    set_eq_self_of_getElem? hl, Nat.zero_add] at key
  exact key

/-! ## Closed form of `FwSmInit` -/

theorem writeAt_of_getElem? {α : Type} {heap : List (List α)} {a : Nat} {arr : List α}
    (h : heap[a]? = some arr) {i : Nat} (hi : i < arr.length) (v : α) :
    writeAt heap (some a) i v = some (heap.set a (arr.set i v)) := by
  have ha := lt_length_of_getElem? h
  simp [writeAt, deref, store, h, ha, hi]

theorem FwSmInit_eq {smDesc : Ptr} {m : Mem} {d : FwSmDesc} {t : SmBaseDesc}
    {acts : List (Option FwSmAction)} {grds : List (Option FwSmGuard)} {lks : List Ptr}
    (hv : InitValid smDesc m d t acts grds lks) :
    FwSmInit smDesc m = some (initMem m d t acts grds lks) := by
  obtain ⟨h1, h2, h3, h4, h5, b1, b2, b3, b4, b5, b6, b7, b8⟩ := hv
  cases smDesc with
  | none => simp [deref] at h1
  | some ad =>
  cases hsb : d.smBase with
  | none => simp [deref, hsb] at h2
  | some ab =>
  cases hsa : d.smActions with
  | none => simp [deref, hsa] at h3
  | some aa =>
  cases hsg : d.smGuards with
  | none => simp [deref, hsg] at h4
  | some ag =>
  cases hsl : d.esmDesc with
  | none => simp [deref, hsl] at h5
  | some al =>
  simp only [deref, hsb, hsa, hsg, hsl] at h1 h2 h3 h4 h5
  have hab := lt_length_of_getElem? h2
  have haa := lt_length_of_getElem? h3
  have hag := lt_length_of_getElem? h4
  have hal := lt_length_of_getElem? h5
  have hA : (1 : Nat) + (d.nOfActions - 1).toNat ≤ acts.length := by omega
  have hG : (1 : Nat) + (d.nOfGuards - 1).toNat ≤ grds.length := by omega
  cases m with
  | mk descs bases actions guards links =>
  simp only at h1 h2 h3 h4 h5 hab haa hag hal
  simp only [FwSmInit, deref, h1, hsb, h2, Option.some_bind]
  rw [forLoop_pStates_links ⟨_, _, _, _, _⟩ h1 h2 hsl h5 t.nOfPStates.toNat (by omega)
    (by omega)]
  simp only [Option.some_bind]
  rw [forLoop_setCStateCursor ⟨_, _, _, _, _⟩ (List.getElem?_set_self hab) t.nOfCStates.toNat
    (by simp only; omega)]
  simp only [Option.some_bind, List.set_set]
  rw [forLoop_setTransAction ⟨_, _, _, _, _⟩ (List.getElem?_set_self hab) t.nOfTrans.toNat
    (by simp only; omega)]
  simp only [Option.some_bind, List.set_set, setAction, deref, h1, hsa]
  rw [writeAt_of_getElem? h3 b5]
  simp only [Option.some_bind]
  rw [forLoop_setAction ⟨_, _, _, _, _⟩ h1 hsa (List.getElem?_set_self haa) 1
    (d.nOfActions - 1).toNat (by rw [List.length_set]; exact hA)]
  simp only [Option.some_bind, List.set_set, setGuard, deref, h1, hsg]
  rw [writeAt_of_getElem? h4 b7]
  simp only [Option.some_bind]
  rw [forLoop_setGuard ⟨_, _, _, _, _⟩ h1 hsg (List.getElem?_set_self hag) 1
    (d.nOfGuards - 1).toNat (by rw [List.length_set]; exact hG)]
  simp only [List.set_set, initMem, initTable, setAt, hsb, hsa, hsg, hsl]

/-! ## Closed form of `FwSmInitDer` -/

theorem forLoop_copyAction (m : Mem) {ac ab aca aba : Nat} {dc db : FwSmDesc}
    {cacts bacts : List (Option FwSmAction)} (hdc : m.descs[ac]? = some dc)
    (hdb : m.descs[ab]? = some db) (hpc : dc.smActions = some aca)
    (hpb : db.smActions = some aba) (hca : m.actions[aca]? = some cacts)
    (hba : m.actions[aba]? = some bacts) (n : Nat) (hn1 : n ≤ cacts.length)
    (hn2 : n ≤ bacts.length) :
    forLoop (copyAction (some ac) (some ab)) 0 n m =
      some { m with actions :=
              m.actions.set aca (patchRange (fun q x => (bacts[q]?).getD x) 0 n cacts) } := by
  have haca := lt_length_of_getElem? hca
  have key := forLoop_closed (copyAction (some ac) (some ab))
    (fun j => { m with actions :=
                  m.actions.set aca (patchRange (fun q x => (bacts[q]?).getD x) 0 j cacts) })
    n 0
    (by
      intro j hj1 hj2
      have hj : j < cacts.length := by omega
      have hjb : j < bacts.length := by omega
      have hx : cacts[j]? = some cacts[j] := List.getElem?_eq_getElem hj
      have hxb : bacts[j]? = some bacts[j] := List.getElem?_eq_getElem hjb
      have hcond : ¬ (0 ≤ j ∧ j < j) := by omega
      have hread : readAt (m.actions.set aca
          (patchRange (fun q x => (bacts[q]?).getD x) 0 j cacts)) (some aba) j
          = some bacts[j] := by
        by_cases hab : aca = aba
        · subst hab
          rw [hca] at hba
          cases hba
          rw [readAt_set_same _ haca, getElem?_patchRange, hx]
          simp [hcond]
        · rw [readAt_set_other _ hab]
          simp [readAt, deref, hba, hxb]
      simp only [copyAction, deref, hdb, hpb, Option.some_bind, hread, setAction, hdc, hpc]
      rw [writeAt_set _ haca (by rw [length_patchRange]; exact hj)]
      simp only [Option.some_bind]
      have hstep := patchRange_step (fun q x => (bacts[q]?).getD x) hj1 hx
      simp only [hxb, Option.getD_some] at hstep
      rw [hstep])
  simp only [patchRange_empty _ (Nat.le_refl 0), set_eq_self_of_getElem? hca,
    Nat.zero_add] at key
  exact key

theorem forLoop_copyGuard (m : Mem) {ac ab aca aba : Nat} {dc db : FwSmDesc}
    {cgrds bgrds : List (Option FwSmGuard)} (hdc : m.descs[ac]? = some dc)
    (hdb : m.descs[ab]? = some db) (hpc : dc.smGuards = some aca)
    (hpb : db.smGuards = some aba) (hca : m.guards[aca]? = some cgrds)
    (hba : m.guards[aba]? = some bgrds) (n : Nat) (hn1 : n ≤ cgrds.length)
    (hn2 : n ≤ bgrds.length) :
    forLoop (copyGuard (some ac) (some ab)) 0 n m =
      some { m with guards :=
              m.guards.set aca (patchRange (fun q x => (bgrds[q]?).getD x) 0 n cgrds) } := by
  have haca := lt_length_of_getElem? hca
  have key := forLoop_closed (copyGuard (some ac) (some ab))
    (fun j => { m with guards :=
                  m.guards.set aca (patchRange (fun q x => (bgrds[q]?).getD x) 0 j cgrds) })
    n 0
    (by
      intro j hj1 hj2
      have hj : j < cgrds.length := by omega
      have hjb : j < bgrds.length := by omega
      have hx : cgrds[j]? = some cgrds[j] := List.getElem?_eq_getElem hj
      have hxb : bgrds[j]? = some bgrds[j] := List.getElem?_eq_getElem hjb
      have hcond : ¬ (0 ≤ j ∧ j < j) := by omega
      have hread : readAt (m.guards.set aca
          (patchRange (fun q x => (bgrds[q]?).getD x) 0 j cgrds)) (some aba) j
          = some bgrds[j] := by
        by_cases hab : aca = aba
        · subst hab
          rw [hca] at hba
          cases hba
          rw [readAt_set_same _ haca, getElem?_patchRange, hx]
          simp [hcond]
        · rw [readAt_set_other _ hab]
          simp [readAt, deref, hba, hxb]
      simp only [copyGuard, deref, hdb, hpb, Option.some_bind, hread, setGuard, hdc, hpc]
      rw [writeAt_set _ haca (by rw [length_patchRange]; exact hj)]
      simp only [Option.some_bind]
      have hstep := patchRange_step (fun q x => (bgrds[q]?).getD x) hj1 hx
      simp only [hxb, Option.getD_some] at hstep
      rw [hstep])
  simp only [patchRange_empty _ (Nat.le_refl 0), set_eq_self_of_getElem? hca,
    Nat.zero_add] at key
  exact key

theorem FwSmInitDer_wrongActions {smDesc smDescBase : Ptr} {m : Mem} {dc db : FwSmDesc}
    (hc : deref m.descs smDesc = some dc) (hb : deref m.descs smDescBase = some db)
    (hne : dc.nOfActions ≠ db.nOfActions) :
    FwSmInitDer smDesc smDescBase m =
      some { m with
        descs := setAt m.descs smDesc { dc with errCode := FwSmErrCode.smWrongNOfActions } } := by
  cases smDesc with
  | none => simp [deref] at hc
  | some ac =>
  have hlen := lt_length_of_getElem? (show m.descs[ac]? = some dc from hc)
  simp [FwSmInitDer, hb, hc, hne, updDesc, store, hlen, setAt]

theorem FwSmInitDer_wrongGuards {smDesc smDescBase : Ptr} {m : Mem} {dc db : FwSmDesc}
    (hc : deref m.descs smDesc = some dc) (hb : deref m.descs smDescBase = some db)
    (heq : dc.nOfActions = db.nOfActions) (hne : dc.nOfGuards ≠ db.nOfGuards) :
    FwSmInitDer smDesc smDescBase m =
      some { m with
        descs := setAt m.descs smDesc { dc with errCode := FwSmErrCode.smWrongNOfGuards } } := by
  cases smDesc with
  | none => simp [deref] at hc
  | some ac =>
  have hlen := lt_length_of_getElem? (show m.descs[ac]? = some dc from hc)
  simp [FwSmInitDer, hb, hc, heq, hne, updDesc, store, hlen, setAt]

theorem FwSmInitDer_eq {smDesc smDescBase : Ptr} {m : Mem} {dc db : FwSmDesc}
    {t : SmBaseDesc} {cacts bacts : List (Option FwSmAction)}
    {cgrds bgrds : List (Option FwSmGuard)} {lks : List Ptr}
    (hv : DerValid smDesc smDescBase m dc db t cacts bacts cgrds bgrds lks)
    (hA : dc.nOfActions = db.nOfActions) (hG : dc.nOfGuards = db.nOfGuards) :
    FwSmInitDer smDesc smDescBase m =
      some (derMem smDesc m dc db t cacts bacts cgrds bgrds lks) := by
  obtain ⟨h1, h2, h3, h4, h5, h6, h7, h8, b1, b2, b3, b4, b5⟩ := hv
  cases smDesc with
  | none => simp [deref] at h1
  | some ac =>
  cases smDescBase with
  | none => simp [deref] at h2
  | some ab =>
  cases hsb : db.smBase with
  | none => simp [deref, hsb] at h3
  | some at_ =>
  cases hca : dc.smActions with
  | none => simp [deref, hca] at h4
  | some aca =>
  cases hba : db.smActions with
  | none => simp [deref, hba] at h5
  | some aba =>
  cases hcg : dc.smGuards with
  | none => simp [deref, hcg] at h6
  | some acg =>
  cases hbg : db.smGuards with
  | none => simp [deref, hbg] at h7
  | some abg =>
  cases hsl : dc.esmDesc with
  | none => simp [deref, hsl] at h8
  | some al =>
  simp only [deref, hsb, hca, hba, hcg, hbg, hsl] at h1 h2 h3 h4 h5 h6 h7 h8
  have hac := lt_length_of_getElem? h1
  cases m with
  | mk descs bases actions guards links =>
  simp only at h1 h2 h3 h4 h5 h6 h7 h8 hac
  have hdb : ∃ db1 : FwSmDesc, (descs.set ac { dc with smBase := some at_ })[ab]? = some db1 ∧
      db1.smActions = some aba ∧ db1.smGuards = some abg ∧ db1.errCode = db.errCode := by
    by_cases hcb : ac = ab
    · subst hcb
      rw [h1] at h2
      cases h2
      exact ⟨_, List.getElem?_set_self hac, hba, hbg, rfl⟩
    · exact ⟨db, by rw [List.getElem?_set_ne hcb]; exact h2, hba, hbg, rfl⟩
  obtain ⟨db1, hdb1, hdb1a, hdb1g, hdb1e⟩ := hdb
  have hdc1 : (descs.set ac { dc with smBase := some at_ })[ac]? =
      some { dc with smBase := some at_ } := List.getElem?_set_self hac
  simp only [FwSmInitDer, deref, h1, h2, hsb, Option.some_bind,
    if_neg (show ¬ dc.nOfActions ≠ db.nOfActions from fun h => h hA),
    if_neg (show ¬ dc.nOfGuards ≠ db.nOfGuards from fun h => h hG), updDesc, store, hac,
    if_true]
  rw [forLoop_copyAction ⟨_, _, _, _, _⟩ hdc1 hdb1 hca hdb1a h4 h5
    dc.nOfActions.toNat (by omega) (by omega)]
  simp only [Option.some_bind]
  rw [forLoop_copyGuard ⟨_, _, _, _, _⟩ hdc1 hdb1 hcg hdb1g h6 h7
    dc.nOfGuards.toNat (by omega) (by omega)]
  simp only [Option.some_bind, h3]
  rw [forLoop_clearLink ⟨_, _, _, _, _⟩ hdc1 hsl h8
    t.nOfPStates.toNat (by omega)]
  simp only [Option.some_bind, hdb1, hdc1, List.length_set, hac, if_true, List.set_set,
    hdb1e]
  simp only [derMem, setAt, hsb, hca, hcg, hsl]

/-! ## Reading the memory after a write -/

theorem deref_setAt_same {α : Type} {heap : List α} {p : Ptr} {v0 : α}
    (h : deref heap p = some v0) (v : α) : deref (setAt heap p v) p = some v := by
  cases p with
  | none => simp [deref] at h
  | some a =>
    have ha := lt_length_of_getElem? (show heap[a]? = some v0 from h)
    simp [deref, setAt, ha]

theorem deref_setAt_other {α : Type} (heap : List α) {p q : Ptr} (hqp : q ≠ p) (v : α) :
    deref (setAt heap p v) q = deref heap q := by
  cases p with
  | none => rfl
  | some a =>
    cases q with
    | none => rfl
    | some b =>
      have hab : a ≠ b := fun h => hqp (by rw [h])
      simp [deref, setAt, List.getElem?_set_ne hab]

theorem readAt_setAt_same {α : Type} {heap : List (List α)} {p : Ptr} {arr0 : List α}
    (h : deref heap p = some arr0) (arr : List α) (i : Nat) :
    readAt (setAt heap p arr) p i = arr[i]? := by
  simp [readAt, deref_setAt_same h]

theorem readAt_setAt_other {α : Type} (heap : List (List α)) {p q : Ptr} (hqp : q ≠ p)
    (arr : List α) (i : Nat) :
    readAt (setAt heap p arr) q i = readAt heap q i := by
  simp [readAt, deref_setAt_other heap hqp]

/-! ## `FwSmInitDer`: the two size checks -/

/-- C1: when the `nOfActions` of the candidate and of the base differ (whatever
their `nOfGuards`), `FwSmInitDer` returns with the candidate's `errCode` set to
`smWrongNOfActions` and nothing else changed: the candidate descriptor is the
old one but for `errCode` (so `smBase`, the three counters and `curState` are
as before), every other descriptor is as before, and the table, action, guard
and link regions (hence every action slot, guard slot and `esmDesc[i]`) are
the same as before the call. -/
theorem C1_wrong_nOfActions (smDesc smDescBase : Ptr) (m : Mem) (dc db : FwSmDesc)
    (hc : deref m.descs smDesc = some dc) (hb : deref m.descs smDescBase = some db)
    (hne : dc.nOfActions ≠ db.nOfActions) :
    ∃ m', FwSmInitDer smDesc smDescBase m = some m' ∧
      deref m'.descs smDesc = some { dc with errCode := FwSmErrCode.smWrongNOfActions } ∧
      (∀ q, q ≠ smDesc → deref m'.descs q = deref m.descs q) ∧
      m'.bases = m.bases ∧ m'.actions = m.actions ∧ m'.guards = m.guards ∧
      m'.links = m.links := by
  refine ⟨_, FwSmInitDer_wrongActions hc hb hne, ?_, ?_, rfl, rfl, rfl, rfl⟩
  · exact deref_setAt_same hc _
  · intro q hq
    exact deref_setAt_other _ hq _

/-- C1 at `mem0`: candidate `desc2` (three action slots) against base `desc0`
(two action slots). -/
theorem C1_wrong_nOfActions_witness :
    ∃ m', FwSmInitDer (some 2) (some 0) mem0 = some m' ∧
      deref m'.descs (some 2) = some { desc2 with errCode := FwSmErrCode.smWrongNOfActions } ∧
      (∀ q, q ≠ some 2 → deref m'.descs q = deref mem0.descs q) ∧
      m'.bases = mem0.bases ∧ m'.actions = mem0.actions ∧ m'.guards = mem0.guards ∧
      m'.links = mem0.links :=
  C1_wrong_nOfActions (some 2) (some 0) mem0 desc2 desc0 rfl rfl (by decide)

/-- C2: when the candidate and the base have equal `nOfActions` and different
`nOfGuards`, `FwSmInitDer` returns with the candidate's `errCode` set to
`smWrongNOfGuards` and nothing else changed: the candidate descriptor is the old
one but for `errCode`, every other descriptor is as before, and the table,
action, guard and link regions are the same as before the call. -/
theorem C2_wrong_nOfGuards (smDesc smDescBase : Ptr) (m : Mem) (dc db : FwSmDesc)
    (hc : deref m.descs smDesc = some dc) (hb : deref m.descs smDescBase = some db)
    (heq : dc.nOfActions = db.nOfActions) (hne : dc.nOfGuards ≠ db.nOfGuards) :
    ∃ m', FwSmInitDer smDesc smDescBase m = some m' ∧
      deref m'.descs smDesc = some { dc with errCode := FwSmErrCode.smWrongNOfGuards } ∧
      (∀ q, q ≠ smDesc → deref m'.descs q = deref m.descs q) ∧
      m'.bases = m.bases ∧ m'.actions = m.actions ∧ m'.guards = m.guards ∧
      m'.links = m.links := by
  refine ⟨_, FwSmInitDer_wrongGuards hc hb heq hne, ?_, ?_, rfl, rfl, rfl, rfl⟩
  · exact deref_setAt_same hc _
  · intro q hq
    exact deref_setAt_other _ hq _

/-- C2 at `mem0`: candidate `desc3` (two action slots, three guard slots)
against base `desc0` (two and two). -/
theorem C2_wrong_nOfGuards_witness :
    ∃ m', FwSmInitDer (some 3) (some 0) mem0 = some m' ∧
      deref m'.descs (some 3) = some { desc3 with errCode := FwSmErrCode.smWrongNOfGuards } ∧
      (∀ q, q ≠ some 3 → deref m'.descs q = deref mem0.descs q) ∧
      m'.bases = mem0.bases ∧ m'.actions = mem0.actions ∧ m'.guards = mem0.guards ∧
      m'.links = mem0.links :=
  C2_wrong_nOfGuards (some 3) (some 0) mem0 desc3 desc0 rfl rfl (by decide) (by decide)

/-! ## `FwSmInitDer`: a derivation that passes both checks -/

theorem derMem_cand {smDesc smDescBase : Ptr} {m : Mem} {dc db : FwSmDesc}
    {t : SmBaseDesc} {cacts bacts : List (Option FwSmAction)}
    {cgrds bgrds : List (Option FwSmGuard)} {lks : List Ptr}
    (hv : DerValid smDesc smDescBase m dc db t cacts bacts cgrds bgrds lks) :
    deref (derMem smDesc m dc db t cacts bacts cgrds bgrds lks).descs smDesc =
      some { dc with smBase := db.smBase, errCode := db.errCode, smExecCnt := 0,
                     stateExecCnt := 0, transCnt := 0, curState := 0 } :=
  deref_setAt_same hv.cand _

theorem copied_read {α : Type} {heap : List (List α)} {pc pb : Ptr} {carr barr : List α}
    (hc : deref heap pc = some carr) (hb : deref heap pb = some barr) {n i : Nat}
    (hin : i < n) (hnc : n ≤ carr.length) (hnb : n ≤ barr.length) :
    readAt heap pb i = some barr[i] ∧
    readAt (setAt heap pc (patchRange (fun q x => (barr[q]?).getD x) 0 n carr)) pc i =
      some barr[i] ∧
    readAt (setAt heap pc (patchRange (fun q x => (barr[q]?).getD x) 0 n carr)) pb i =
      some barr[i] := by
  have hic : i < carr.length := by omega
  have hib : i < barr.length := by omega
  have hxc : carr[i]? = some carr[i] := List.getElem?_eq_getElem hic
  have hxb : barr[i]? = some barr[i] := List.getElem?_eq_getElem hib
  have hcond : 0 ≤ i ∧ i < n := ⟨Nat.zero_le i, hin⟩
  have h1 : readAt heap pb i = some barr[i] := by simp [readAt, hb, hxb]
  have h2 : readAt (setAt heap pc (patchRange (fun q x => (barr[q]?).getD x) 0 n carr)) pc i =
      some barr[i] := by
    rw [readAt_setAt_same hc, getElem?_patchRange, hxc]
    simp [hcond, hxb]
  refine ⟨h1, h2, ?_⟩
  by_cases hpp : pb = pc
  · rw [hpp]
    exact h2
  · rw [readAt_setAt_other _ hpp]
    exact h1

/-- C4: when the candidate and the base have equal `nOfActions` and equal
`nOfGuards`, whatever counters and states the two held, `FwSmInitDer` returns
and the candidate then has `smExecCnt = 0`, `stateExecCnt = 0`, `transCnt = 0`,
`curState = 0`, and as `errCode` the `errCode` the base had at the call. -/
theorem C4_derived_runtime_state (smDesc smDescBase : Ptr) (m : Mem)
    (dc db : FwSmDesc) (t : SmBaseDesc) (cacts bacts : List (Option FwSmAction))
    (cgrds bgrds : List (Option FwSmGuard)) (lks : List Ptr)
    (hv : DerValid smDesc smDescBase m dc db t cacts bacts cgrds bgrds lks)
    (hA : dc.nOfActions = db.nOfActions) (hG : dc.nOfGuards = db.nOfGuards) :
    ∃ m' dc', FwSmInitDer smDesc smDescBase m = some m' ∧
      deref m'.descs smDesc = some dc' ∧
      dc'.smExecCnt = 0 ∧ dc'.stateExecCnt = 0 ∧ dc'.transCnt = 0 ∧ dc'.curState = 0 ∧
      dc'.errCode = db.errCode :=
  ⟨_, _, FwSmInitDer_eq hv hA hG, derMem_cand hv, rfl, rfl, rfl, rfl, rfl⟩

/-- C4 at `mem0`: candidate `desc1` derived from base `desc0`, which has been
executed and carries error code `other 7`. -/
theorem C4_derived_runtime_state_witness :
    DerValid (some 1) (some 0) mem0 desc1 desc0 tbl0 acts1 acts0 grds1 grds0 lks1 ∧
    desc1.nOfActions = desc0.nOfActions ∧ desc1.nOfGuards = desc0.nOfGuards ∧
    ∃ m' dc', FwSmInitDer (some 1) (some 0) mem0 = some m' ∧
      deref m'.descs (some 1) = some dc' ∧
      dc'.smExecCnt = 0 ∧ dc'.stateExecCnt = 0 ∧ dc'.transCnt = 0 ∧ dc'.curState = 0 ∧
      dc'.errCode = desc0.errCode := by
  have hv : DerValid (some 1) (some 0) mem0 desc1 desc0 tbl0 acts1 acts0 grds1 grds0 lks1 :=
    ⟨rfl, rfl, rfl, rfl, rfl, rfl, rfl, rfl, by decide, by decide, by decide, by decide,
      by decide⟩
  exact ⟨hv, by decide, by decide,
    C4_derived_runtime_state (some 1) (some 0) mem0 desc1 desc0 tbl0 acts1 acts0
      grds1 grds0 lks1 hv (by decide) (by decide)⟩

/-! ## `FwSmInit` -/

theorem initMem_table {smDesc : Ptr} {m : Mem} {d : FwSmDesc} {t : SmBaseDesc}
    {acts : List (Option FwSmAction)} {grds : List (Option FwSmGuard)} {lks : List Ptr}
    (hv : InitValid smDesc m d t acts grds lks) :
    deref (initMem m d t acts grds lks).bases d.smBase = some (initTable t) :=
  deref_setAt_same hv.base _

/-- C5: for a descriptor with `nOfActions ≥ 1` and `nOfGuards ≥ 1`, `FwSmInit`
returns and then `smActions[0]` is `SmDummyAction`, `smActions[i]` is `NULL`
for every `1 ≤ i < nOfActions`, `smGuards[0]` is `SmDummyGuard` and
`smGuards[i]` is `NULL` for every `1 ≤ i < nOfGuards`, whatever the arrays
`acts` and `grds` held before. -/
theorem C5_init_registry_slots (smDesc : Ptr) (m : Mem) (d : FwSmDesc) (t : SmBaseDesc)
    (acts : List (Option FwSmAction)) (grds : List (Option FwSmGuard)) (lks : List Ptr)
    (hv : InitValid smDesc m d t acts grds lks)
    (hA : 1 ≤ d.nOfActions) (hG : 1 ≤ d.nOfGuards) :
    ∃ m', FwSmInit smDesc m = some m' ∧ deref m'.descs smDesc = some d ∧
      readAt m'.actions d.smActions 0 = some (some FwSmAction.SmDummyAction) ∧
      (∀ i : Nat, 1 ≤ i → (i : Int) < d.nOfActions →
        readAt m'.actions d.smActions i = some none) ∧
      readAt m'.guards d.smGuards 0 = some (some FwSmGuard.SmDummyGuard) ∧
      (∀ i : Nat, 1 ≤ i → (i : Int) < d.nOfGuards →
        readAt m'.guards d.smGuards i = some none) := by
  have ha := hv.actions_len
  have hg := hv.guards_len
  have ha0 := hv.actions_pos
  have hg0 := hv.guards_pos
  refine ⟨_, FwSmInit_eq hv, hv.desc, ?_, ?_, ?_, ?_⟩
  · simp only [initMem]
    rw [readAt_setAt_same hv.actions, getElem?_patchRange, List.getElem?_set_self ha0]
    simp
  · intro i h1 hi
    have hil : i < acts.length := by omega
    have hne : 0 ≠ i := by omega
    have hcond : 1 ≤ i ∧ i < 1 + (d.nOfActions - 1).toNat := by omega
    simp only [initMem]
    rw [readAt_setAt_same hv.actions, getElem?_patchRange, List.getElem?_set_ne hne,
      List.getElem?_eq_getElem hil]
    simp only [Option.map_some', if_pos hcond]
  · simp only [initMem]
    rw [readAt_setAt_same hv.guards, getElem?_patchRange, List.getElem?_set_self hg0]
    simp
  · intro i h1 hi
    have hil : i < grds.length := by omega
    have hne : 0 ≠ i := by omega
    have hcond : 1 ≤ i ∧ i < 1 + (d.nOfGuards - 1).toNat := by omega
    simp only [initMem]
    rw [readAt_setAt_same hv.guards, getElem?_patchRange, List.getElem?_set_ne hne,
      List.getElem?_eq_getElem hil]
    simp only [Option.map_some', if_pos hcond]

/-- C5 at `mem0`: `desc0`, whose two action slots and two guard slots are all
bound to application callables before the call. -/
theorem C5_init_registry_slots_witness :
    InitValid (some 0) mem0 desc0 tbl0 acts0 grds0 lks0 ∧
    1 ≤ desc0.nOfActions ∧ 1 ≤ desc0.nOfGuards ∧
    ∃ m', FwSmInit (some 0) mem0 = some m' ∧ deref m'.descs (some 0) = some desc0 ∧
      readAt m'.actions desc0.smActions 0 = some (some FwSmAction.SmDummyAction) ∧
      (∀ i : Nat, 1 ≤ i → (i : Int) < desc0.nOfActions →
        readAt m'.actions desc0.smActions i = some none) ∧
      readAt m'.guards desc0.smGuards 0 = some (some FwSmGuard.SmDummyGuard) ∧
      (∀ i : Nat, 1 ≤ i → (i : Int) < desc0.nOfGuards →
        readAt m'.guards desc0.smGuards i = some none) := by
  have hv : InitValid (some 0) mem0 desc0 tbl0 acts0 grds0 lks0 :=
    ⟨rfl, rfl, rfl, rfl, rfl, by decide, by decide, by decide, by decide, by decide,
      by decide, by decide, by decide⟩
  exact ⟨hv, by decide, by decide,
    C5_init_registry_slots (some 0) mem0 desc0 tbl0 acts0 grds0 lks0 hv (by decide)
      (by decide)⟩

/-- C6: `FwSmInit` returns and then every state `pStates[i]`, `i < nOfPStates`,
and every state `cStates[i]`, `i < nOfCStates`, of the descriptor's table has
`outTransIndex = 0`, whatever the cursors were before. -/
theorem C6_init_state_cursors (smDesc : Ptr) (m : Mem) (d : FwSmDesc) (t : SmBaseDesc)
    (acts : List (Option FwSmAction)) (grds : List (Option FwSmGuard)) (lks : List Ptr)
    (hv : InitValid smDesc m d t acts grds lks) :
    ∃ m' t', FwSmInit smDesc m = some m' ∧ deref m'.descs smDesc = some d ∧
      deref m'.bases d.smBase = some t' ∧
      t'.nOfPStates = t.nOfPStates ∧ t'.nOfCStates = t.nOfCStates ∧
      (∀ i : Nat, (i : Int) < t'.nOfPStates →
        ∃ s, t'.pStates[i]? = some s ∧ s.outTransIndex = 0) ∧
      (∀ i : Nat, (i : Int) < t'.nOfCStates →
        ∃ s, t'.cStates[i]? = some s ∧ s.outTransIndex = 0) := by
  have hp := hv.pStates_len
  have hc := hv.cStates_len
  refine ⟨_, _, FwSmInit_eq hv, hv.desc, initMem_table hv, rfl, rfl, ?_, ?_⟩
  · intro i hi
    simp only [initTable] at hi
    have hil : i < t.pStates.length := by omega
    have hcond : 0 ≤ i ∧ i < t.nOfPStates.toNat := by omega
    refine ⟨{ t.pStates[i] with outTransIndex := 0 }, ?_, rfl⟩
    simp only [initTable]
    rw [getElem?_patchRange, List.getElem?_eq_getElem hil]
    simp [hcond]
  · intro i hi
    simp only [initTable] at hi
    have hil : i < t.cStates.length := by omega
    have hcond : 0 ≤ i ∧ i < t.nOfCStates.toNat := by omega
    refine ⟨{ t.cStates[i] with outTransIndex := 0 }, ?_, rfl⟩
    simp only [initTable]
    rw [getElem?_patchRange, List.getElem?_eq_getElem hil]
    simp [hcond]

/-- C6 at `mem0`: `desc0` on `tbl0`, whose three states have the cursors 5, 7
and 4 before the call. -/
theorem C6_init_state_cursors_witness :
    InitValid (some 0) mem0 desc0 tbl0 acts0 grds0 lks0 ∧
    ∃ m' t', FwSmInit (some 0) mem0 = some m' ∧ deref m'.descs (some 0) = some desc0 ∧
      deref m'.bases desc0.smBase = some t' ∧
      t'.nOfPStates = tbl0.nOfPStates ∧ t'.nOfCStates = tbl0.nOfCStates ∧
      (∀ i : Nat, (i : Int) < t'.nOfPStates →
        ∃ s, t'.pStates[i]? = some s ∧ s.outTransIndex = 0) ∧
      (∀ i : Nat, (i : Int) < t'.nOfCStates →
        ∃ s, t'.cStates[i]? = some s ∧ s.outTransIndex = 0) := by
  have hv : InitValid (some 0) mem0 desc0 tbl0 acts0 grds0 lks0 :=
    ⟨rfl, rfl, rfl, rfl, rfl, by decide, by decide, by decide, by decide, by decide,
      by decide, by decide, by decide⟩
  exact ⟨hv, C6_init_state_cursors (some 0) mem0 desc0 tbl0 acts0 grds0 lks0 hv⟩

/-- C7: `FwSmInit` returns and then every transition `trans[i]`, `i < nOfTrans`,
of the descriptor's table has `iTrAction = -1`, whatever it was before. -/
theorem C7_init_trans_actions (smDesc : Ptr) (m : Mem) (d : FwSmDesc) (t : SmBaseDesc)
    (acts : List (Option FwSmAction)) (grds : List (Option FwSmGuard)) (lks : List Ptr)
    (hv : InitValid smDesc m d t acts grds lks) :
    ∃ m' t', FwSmInit smDesc m = some m' ∧ deref m'.descs smDesc = some d ∧
      deref m'.bases d.smBase = some t' ∧ t'.nOfTrans = t.nOfTrans ∧
      (∀ i : Nat, (i : Int) < t'.nOfTrans →
        ∃ tr, t'.trans[i]? = some tr ∧ tr.iTrAction = -1) := by
  have ht := hv.trans_len
  refine ⟨_, _, FwSmInit_eq hv, hv.desc, initMem_table hv, rfl, ?_⟩
  intro i hi
  simp only [initTable] at hi
  have hil : i < t.trans.length := by omega
  have hcond : 0 ≤ i ∧ i < t.nOfTrans.toNat := by omega
  refine ⟨{ t.trans[i] with iTrAction := -1 }, ?_, rfl⟩
  simp only [initTable]
  rw [getElem?_patchRange, List.getElem?_eq_getElem hil]
  simp [hcond]

/-- C7 at `mem0`: `desc0` on `tbl0`, whose transition is bound to action 1
before the call. -/
theorem C7_init_trans_actions_witness :
    InitValid (some 0) mem0 desc0 tbl0 acts0 grds0 lks0 ∧
    ∃ m' t', FwSmInit (some 0) mem0 = some m' ∧ deref m'.descs (some 0) = some desc0 ∧
      deref m'.bases desc0.smBase = some t' ∧ t'.nOfTrans = tbl0.nOfTrans ∧
      (∀ i : Nat, (i : Int) < t'.nOfTrans →
        ∃ tr, t'.trans[i]? = some tr ∧ tr.iTrAction = -1) := by
  have hv : InitValid (some 0) mem0 desc0 tbl0 acts0 grds0 lks0 :=
    ⟨rfl, rfl, rfl, rfl, rfl, by decide, by decide, by decide, by decide, by decide,
      by decide, by decide, by decide⟩
  exact ⟨hv, C7_init_trans_actions (some 0) mem0 desc0 tbl0 acts0 grds0 lks0 hv⟩

/-- C8, as stated, fails at `mem0`: the transition of `tbl0` has guard index 1
before `FwSmInit` and still has guard index 1, not the sentinel -1, after it. -/
theorem C8_init_trans_guards_counterexample :
    InitValid (some 0) mem0 desc0 tbl0 acts0 grds0 lks0 ∧
    ∃ m' t' tr, FwSmInit (some 0) mem0 = some m' ∧
      deref m'.bases desc0.smBase = some t' ∧ ((0 : Nat) : Int) < t'.nOfTrans ∧
      t'.trans[0]? = some tr ∧ tr.iTrGuard = 1 ∧ tr.iTrGuard ≠ -1 :=
  ⟨⟨rfl, rfl, rfl, rfl, rfl, by decide, by decide, by decide, by decide, by decide,
      by decide, by decide, by decide⟩,
    _, _, _, rfl, rfl, by decide, rfl, rfl, by decide⟩

/-- C8, amended: `FwSmInit` returns and then every transition `trans[i]`,
`i < nOfTrans`, of the descriptor's table has the guard index `iTrGuard` it had
before the call; the call writes the action index only. -/
theorem C8_init_trans_guards_kept (smDesc : Ptr) (m : Mem) (d : FwSmDesc) (t : SmBaseDesc)
    (acts : List (Option FwSmAction)) (grds : List (Option FwSmGuard)) (lks : List Ptr)
    (hv : InitValid smDesc m d t acts grds lks) :
    ∃ m' t', FwSmInit smDesc m = some m' ∧ deref m'.descs smDesc = some d ∧
      deref m'.bases d.smBase = some t' ∧ t'.nOfTrans = t.nOfTrans ∧
      (∀ i : Nat, (i : Int) < t'.nOfTrans →
        ∃ tr0 tr, t.trans[i]? = some tr0 ∧ t'.trans[i]? = some tr ∧
          tr.iTrGuard = tr0.iTrGuard) := by
  have ht := hv.trans_len
  refine ⟨_, _, FwSmInit_eq hv, hv.desc, initMem_table hv, rfl, ?_⟩
  intro i hi
  simp only [initTable] at hi
  have hil : i < t.trans.length := by omega
  have hcond : 0 ≤ i ∧ i < t.nOfTrans.toNat := by omega
  refine ⟨t.trans[i], { t.trans[i] with iTrAction := -1 }, List.getElem?_eq_getElem hil,
    ?_, rfl⟩
  simp only [initTable]
  rw [getElem?_patchRange, List.getElem?_eq_getElem hil]
  simp [hcond]

/-- C8, amended, at `mem0`: `desc0` on `tbl0`, whose transition has guard
index 1. -/
theorem C8_init_trans_guards_kept_witness :
    InitValid (some 0) mem0 desc0 tbl0 acts0 grds0 lks0 ∧
    ∃ m' t', FwSmInit (some 0) mem0 = some m' ∧ deref m'.descs (some 0) = some desc0 ∧
      deref m'.bases desc0.smBase = some t' ∧ t'.nOfTrans = tbl0.nOfTrans ∧
      (∀ i : Nat, (i : Int) < t'.nOfTrans →
        ∃ tr0 tr, tbl0.trans[i]? = some tr0 ∧ t'.trans[i]? = some tr ∧
          tr.iTrGuard = tr0.iTrGuard) := by
  have hv : InitValid (some 0) mem0 desc0 tbl0 acts0 grds0 lks0 :=
    ⟨rfl, rfl, rfl, rfl, rfl, by decide, by decide, by decide, by decide, by decide,
      by decide, by decide, by decide⟩
  exact ⟨hv, C8_init_trans_guards_kept (some 0) mem0 desc0 tbl0 acts0 grds0 lks0 hv⟩

/-- C9, as stated, fails at `mem1`: `tbl1` has one state in `pStates` and two
in `cStates`, the link array of `desc4` has two slots, and after `FwSmInit`
slot 1 still holds the link it held before. -/
theorem C9_init_links_counterexample :
    InitValid (some 0) mem1 desc4 tbl1 acts4 grds4 lks4 ∧
    (lks4.length : Int) = tbl1.nOfCStates ∧
    ∃ m', FwSmInit (some 0) mem1 = some m' ∧ ((1 : Nat) : Int) < tbl1.nOfCStates ∧
      readAt m'.links desc4.esmDesc 1 = some (some 1) ∧
      readAt m'.links desc4.esmDesc 1 ≠ some none :=
  ⟨⟨rfl, rfl, rfl, rfl, rfl, by decide, by decide, by decide, by decide, by decide,
      by decide, by decide, by decide⟩,
    by decide, _, rfl, by decide, rfl, by decide⟩

/-- C9, amended: `FwSmInit` returns and then `esmDesc[i]` is `NULL` for every
`i < nOfPStates` of the descriptor's table, whatever it held before; the slots
of the link array from index `nOfPStates` on hold what they held before. -/
theorem C9_init_links_cleared (smDesc : Ptr) (m : Mem) (d : FwSmDesc) (t : SmBaseDesc)
    (acts : List (Option FwSmAction)) (grds : List (Option FwSmGuard)) (lks : List Ptr)
    (hv : InitValid smDesc m d t acts grds lks) :
    ∃ m', FwSmInit smDesc m = some m' ∧ deref m'.descs smDesc = some d ∧
      (∀ i : Nat, (i : Int) < t.nOfPStates → readAt m'.links d.esmDesc i = some none) ∧
      (∀ i : Nat, t.nOfPStates ≤ (i : Int) →
        readAt m'.links d.esmDesc i = readAt m.links d.esmDesc i) := by
  have hl := hv.links_len
  refine ⟨_, FwSmInit_eq hv, hv.desc, ?_, ?_⟩
  · intro i hi
    have hil : i < lks.length := by omega
    have hcond : 0 ≤ i ∧ i < t.nOfPStates.toNat := by omega
    simp only [initMem]
    rw [readAt_setAt_same hv.links, getElem?_patchRange, List.getElem?_eq_getElem hil]
    simp only [Option.map_some', if_pos hcond]
  · intro i hi
    have hcond : ¬ (0 ≤ i ∧ i < t.nOfPStates.toNat) := by omega
    simp only [initMem]
    rw [readAt_setAt_same hv.links, getElem?_patchRange]
    simp only [if_neg hcond, Option.map_id', readAt, hv.links, Option.some_bind]

/-- C9, amended, at `mem1`: `desc4` on `tbl1`. -/
theorem C9_init_links_cleared_witness :
    InitValid (some 0) mem1 desc4 tbl1 acts4 grds4 lks4 ∧
    ∃ m', FwSmInit (some 0) mem1 = some m' ∧ deref m'.descs (some 0) = some desc4 ∧
      (∀ i : Nat, (i : Int) < tbl1.nOfPStates →
        readAt m'.links desc4.esmDesc i = some none) ∧
      (∀ i : Nat, tbl1.nOfPStates ≤ (i : Int) →
        readAt m'.links desc4.esmDesc i = readAt mem1.links desc4.esmDesc i) := by
  have hv : InitValid (some 0) mem1 desc4 tbl1 acts4 grds4 lks4 :=
    ⟨rfl, rfl, rfl, rfl, rfl, by decide, by decide, by decide, by decide, by decide,
      by decide, by decide, by decide⟩
  exact ⟨hv, C9_init_links_cleared (some 0) mem1 desc4 tbl1 acts4 grds4 lks4 hv⟩

/-- C10, as stated, fails at `mem1`: the base `desc4` is on `tbl1`, with one
state in `pStates` and two in `cStates`, the link array of the candidate
`desc5` has two slots, and after `FwSmInitDer` slot 1 still holds the link it
held before. -/
theorem C10_derived_links_counterexample :
    DerValid (some 1) (some 0) mem1 desc5 desc4 tbl1 acts5 acts4 grds5 grds4 lks5 ∧
    desc5.nOfActions = desc4.nOfActions ∧ desc5.nOfGuards = desc4.nOfGuards ∧
    (lks5.length : Int) = tbl1.nOfCStates ∧
    ∃ m' dc', FwSmInitDer (some 1) (some 0) mem1 = some m' ∧
      deref m'.descs (some 1) = some dc' ∧ ((1 : Nat) : Int) < tbl1.nOfCStates ∧
      readAt m'.links dc'.esmDesc 1 = some (some 0) ∧
      readAt m'.links dc'.esmDesc 1 ≠ some none :=
  ⟨⟨rfl, rfl, rfl, rfl, rfl, rfl, rfl, rfl, by decide, by decide, by decide, by decide,
      by decide⟩,
    by decide, by decide, by decide, _, _, rfl, rfl, by decide, rfl, by decide⟩

/-- C10, amended: when the candidate and the base have equal `nOfActions` and
equal `nOfGuards`, `FwSmInitDer` returns and then the candidate's `esmDesc[i]`
is `NULL` for every `i < nOfPStates` of the base's table, whatever it held
before; the slots of the candidate's link array from index `nOfPStates` on hold
what they held before. -/
theorem C10_derived_links_cleared (smDesc smDescBase : Ptr) (m : Mem)
    (dc db : FwSmDesc) (t : SmBaseDesc) (cacts bacts : List (Option FwSmAction))
    (cgrds bgrds : List (Option FwSmGuard)) (lks : List Ptr)
    (hv : DerValid smDesc smDescBase m dc db t cacts bacts cgrds bgrds lks)
    (hA : dc.nOfActions = db.nOfActions) (hG : dc.nOfGuards = db.nOfGuards) :
    ∃ m' dc', FwSmInitDer smDesc smDescBase m = some m' ∧
      deref m'.descs smDesc = some dc' ∧ dc'.esmDesc = dc.esmDesc ∧
      (∀ i : Nat, (i : Int) < t.nOfPStates → readAt m'.links dc'.esmDesc i = some none) ∧
      (∀ i : Nat, t.nOfPStates ≤ (i : Int) →
        readAt m'.links dc'.esmDesc i = readAt m.links dc.esmDesc i) := by
  have hl := hv.links_len
  refine ⟨_, _, FwSmInitDer_eq hv hA hG, derMem_cand hv, rfl, ?_, ?_⟩
  · intro i hi
    have hil : i < lks.length := by omega
    have hcond : 0 ≤ i ∧ i < t.nOfPStates.toNat := by omega
    simp only [derMem]
    rw [readAt_setAt_same hv.links, getElem?_patchRange, List.getElem?_eq_getElem hil]
    simp only [Option.map_some', if_pos hcond]
  · intro i hi
    have hcond : ¬ (0 ≤ i ∧ i < t.nOfPStates.toNat) := by omega
    simp only [derMem]
    rw [readAt_setAt_same hv.links, getElem?_patchRange]
    simp only [if_neg hcond, Option.map_id', readAt, hv.links, Option.some_bind]

/-- C10, amended, at `mem1`: candidate `desc5` derived from base `desc4` on
`tbl1`. -/
theorem C10_derived_links_cleared_witness :
    DerValid (some 1) (some 0) mem1 desc5 desc4 tbl1 acts5 acts4 grds5 grds4 lks5 ∧
    desc5.nOfActions = desc4.nOfActions ∧ desc5.nOfGuards = desc4.nOfGuards ∧
    ∃ m' dc', FwSmInitDer (some 1) (some 0) mem1 = some m' ∧
      deref m'.descs (some 1) = some dc' ∧ dc'.esmDesc = desc5.esmDesc ∧
      (∀ i : Nat, (i : Int) < tbl1.nOfPStates →
        readAt m'.links dc'.esmDesc i = some none) ∧
      (∀ i : Nat, tbl1.nOfPStates ≤ (i : Int) →
        readAt m'.links dc'.esmDesc i = readAt mem1.links desc5.esmDesc i) := by
  have hv : DerValid (some 1) (some 0) mem1 desc5 desc4 tbl1 acts5 acts4 grds5 grds4 lks5 :=
    ⟨rfl, rfl, rfl, rfl, rfl, rfl, rfl, rfl, by decide, by decide, by decide, by decide,
      by decide⟩
  exact ⟨hv, by decide, by decide,
    C10_derived_links_cleared (some 1) (some 0) mem1 desc5 desc4 tbl1 acts5 acts4 grds5
      grds4 lks5 hv (by decide) (by decide)⟩

/-! ## `FwSmInit` run twice -/

theorem patchRange_idem {α : Type} (g : Nat → α → α) (hg : ∀ q x, g q (g q x) = g q x)
    (lo hi : Nat) (xs : List α) :
    patchRange g lo hi (patchRange g lo hi xs) = patchRange g lo hi xs := by
  apply List.ext_getElem?
  intro q
  rw [getElem?_patchRange, getElem?_patchRange]
  cases xs[q]? with
  | none => rfl
  | some x =>
    by_cases hc : lo ≤ q ∧ q < hi
    · simp only [Option.map_some', if_pos hc, hg]
    · simp only [Option.map_some', if_neg hc]

theorem setAt_setAt {α : Type} (heap : List α) (p : Ptr) (v w : α) :
    setAt (setAt heap p v) p w = setAt heap p w := by
  cases p with
  | none => rfl
  | some a => simp only [setAt, List.set_set]

theorem initTable_idem (t : SmBaseDesc) : initTable (initTable t) = initTable t := by
  simp only [initTable]
  rw [patchRange_idem (fun _ (s : SmPState) => { s with outTransIndex := 0 })
      (fun _ _ => rfl),
    patchRange_idem (fun _ (s : SmCState) => { s with outTransIndex := 0 })
      (fun _ _ => rfl),
    patchRange_idem (fun _ (tr : SmTrans) => { tr with iTrAction := -1 })
      (fun _ _ => rfl)]

theorem patched_slot0 {α : Type} (v : α) (hi : Nat) {xs : List (Option α)}
    (hx : 0 < xs.length) :
    (patchRange (fun _ _ => none) 1 hi (xs.set 0 (some v)))[0]? = some (some v) := by
  have hcond : ¬ (1 ≤ 0 ∧ 0 < hi) := by omega
  rw [getElem?_patchRange, List.getElem?_set_self hx]
  simp only [Option.map_some', if_neg hcond]

theorem patched_refill {α : Type} (v : α) (hi : Nat) {xs : List (Option α)}
    (hx : 0 < xs.length) :
    patchRange (fun _ _ => none) 1 hi
        ((patchRange (fun _ _ => none) 1 hi (xs.set 0 (some v))).set 0 (some v)) =
      patchRange (fun _ _ => none) 1 hi (xs.set 0 (some v)) := by
  rw [set_eq_self_of_getElem? (patched_slot0 v hi hx),
    patchRange_idem (fun _ (_ : Option α) => none) (fun _ _ => rfl)]

theorem initMem_valid {smDesc : Ptr} {m : Mem} {d : FwSmDesc} {t : SmBaseDesc}
    {acts : List (Option FwSmAction)} {grds : List (Option FwSmGuard)} {lks : List Ptr}
    (hv : InitValid smDesc m d t acts grds lks) :
    InitValid smDesc (initMem m d t acts grds lks) d (initTable t)
      (patchRange (fun _ _ => none) 1 (1 + (d.nOfActions - 1).toNat)
        (acts.set 0 (some FwSmAction.SmDummyAction)))
      (patchRange (fun _ _ => none) 1 (1 + (d.nOfGuards - 1).toNat)
        (grds.set 0 (some FwSmGuard.SmDummyGuard)))
      (patchRange (fun _ _ => none) 0 t.nOfPStates.toNat lks) := by
  obtain ⟨h1, h2, h3, h4, h5, b1, b2, b3, b4, b5, b6, b7, b8⟩ := hv
  refine ⟨h1, deref_setAt_same h2 _, deref_setAt_same h3 _, deref_setAt_same h4 _,
    deref_setAt_same h5 _, ?_, ?_, ?_, ?_, ?_, ?_, ?_, ?_⟩
  · simp only [initTable, length_patchRange]; exact b1
  · simp only [initTable, length_patchRange]; exact b2
  · simp only [initTable, length_patchRange]; exact b3
  · simp only [initTable, length_patchRange]; exact b4
  · simp only [length_patchRange, List.length_set]; exact b5
  · simp only [length_patchRange, List.length_set]; exact b6
  · simp only [length_patchRange, List.length_set]; exact b7
  · simp only [length_patchRange, List.length_set]; exact b8

theorem initMem_idem {smDesc : Ptr} {m : Mem} {d : FwSmDesc} {t : SmBaseDesc}
    {acts : List (Option FwSmAction)} {grds : List (Option FwSmGuard)} {lks : List Ptr}
    (hv : InitValid smDesc m d t acts grds lks) :
    initMem (initMem m d t acts grds lks) d (initTable t)
      (patchRange (fun _ _ => none) 1 (1 + (d.nOfActions - 1).toNat)
        (acts.set 0 (some FwSmAction.SmDummyAction)))
      (patchRange (fun _ _ => none) 1 (1 + (d.nOfGuards - 1).toNat)
        (grds.set 0 (some FwSmGuard.SmDummyGuard)))
      (patchRange (fun _ _ => none) 0 t.nOfPStates.toNat lks) =
    initMem m d t acts grds lks := by
  simp only [initMem, setAt_setAt, initTable_idem, patched_refill _ _ hv.actions_pos,
    patched_refill _ _ hv.guards_pos]
  have hn : (initTable t).nOfPStates = t.nOfPStates := rfl
  rw [hn, patchRange_idem (fun _ (_ : Ptr) => none) (fun _ _ => rfl)]

/-- C11: `FwSmInit` is idempotent.  For a structurally valid descriptor and
table (arrays as long as their counts say, and a slot 0 in the action and in
the guard array, which `nOfActions ≥ 1` and `nOfGuards ≥ 1` give), `FwSmInit`
returns a memory `m1`, and `FwSmInit` run again on `m1` returns `m1` itself:
every descriptor, table and array is after the second call as after the
first. -/
theorem C11_init_idempotent (smDesc : Ptr) (m : Mem) (d : FwSmDesc) (t : SmBaseDesc)
    (acts : List (Option FwSmAction)) (grds : List (Option FwSmGuard)) (lks : List Ptr)
    (hv : InitValid smDesc m d t acts grds lks) :
    ∃ m1, FwSmInit smDesc m = some m1 ∧ FwSmInit smDesc m1 = some m1 ∧
      (FwSmInit smDesc m).bind (FwSmInit smDesc) = FwSmInit smDesc m := by
  have h1 := FwSmInit_eq hv
  have h2 := FwSmInit_eq (initMem_valid hv)
  rw [initMem_idem hv] at h2
  exact ⟨_, h1, h2, by rw [h1, Option.some_bind, h2]⟩

/-- C11 at `mem0`: `desc0` on `tbl0`. -/
theorem C11_init_idempotent_witness :
    InitValid (some 0) mem0 desc0 tbl0 acts0 grds0 lks0 ∧
    1 ≤ desc0.nOfActions ∧ 1 ≤ desc0.nOfGuards ∧
    ∃ m1, FwSmInit (some 0) mem0 = some m1 ∧ FwSmInit (some 0) m1 = some m1 ∧
      (FwSmInit (some 0) mem0).bind (FwSmInit (some 0)) = FwSmInit (some 0) mem0 := by
  have hv : InitValid (some 0) mem0 desc0 tbl0 acts0 grds0 lks0 :=
    ⟨rfl, rfl, rfl, rfl, rfl, by decide, by decide, by decide, by decide, by decide,
      by decide, by decide, by decide⟩
  exact ⟨hv, by decide, by decide,
    C11_init_idempotent (some 0) mem0 desc0 tbl0 acts0 grds0 lks0 hv⟩

/-! ## `FwSmInit` and the descriptor's own fields -/

/-- C12: `FwSmInit` never sets an error code.  It returns, and the descriptor
has after the call the `errCode`, `smExecCnt`, `stateExecCnt`, `transCnt`,
`curState`, `nOfActions` and `nOfGuards` it had before; indeed no descriptor
of the memory is written. -/
theorem C12_init_keeps_descriptor_fields (smDesc : Ptr) (m : Mem) (d : FwSmDesc)
    (t : SmBaseDesc) (acts : List (Option FwSmAction)) (grds : List (Option FwSmGuard))
    (lks : List Ptr) (hv : InitValid smDesc m d t acts grds lks) :
    ∃ m' d', FwSmInit smDesc m = some m' ∧ deref m'.descs smDesc = some d' ∧
      d'.errCode = d.errCode ∧ d'.smExecCnt = d.smExecCnt ∧
      d'.stateExecCnt = d.stateExecCnt ∧ d'.transCnt = d.transCnt ∧
      d'.curState = d.curState ∧ d'.nOfActions = d.nOfActions ∧
      d'.nOfGuards = d.nOfGuards ∧ m'.descs = m.descs :=
  ⟨_, d, FwSmInit_eq hv, hv.desc, rfl, rfl, rfl, rfl, rfl, rfl, rfl, rfl⟩

/-- C12 at `mem0`: `desc0`, with error code `other 7` and counters 9, 4, 3. -/
theorem C12_init_keeps_descriptor_fields_witness :
    InitValid (some 0) mem0 desc0 tbl0 acts0 grds0 lks0 ∧
    ∃ m' d', FwSmInit (some 0) mem0 = some m' ∧ deref m'.descs (some 0) = some d' ∧
      d'.errCode = desc0.errCode ∧ d'.smExecCnt = desc0.smExecCnt ∧
      d'.stateExecCnt = desc0.stateExecCnt ∧ d'.transCnt = desc0.transCnt ∧
      d'.curState = desc0.curState ∧ d'.nOfActions = desc0.nOfActions ∧
      d'.nOfGuards = desc0.nOfGuards ∧ m'.descs = mem0.descs := by
  have hv : InitValid (some 0) mem0 desc0 tbl0 acts0 grds0 lks0 :=
    ⟨rfl, rfl, rfl, rfl, rfl, by decide, by decide, by decide, by decide, by decide,
      by decide, by decide, by decide⟩
  exact ⟨hv,
    C12_init_keeps_descriptor_fields (some 0) mem0 desc0 tbl0 acts0 grds0 lks0 hv⟩

/-- C13, as stated, fails at `mem0`: `desc0` has `curState = 2` and error code
`other 7` before `FwSmInit`, and after it `curState` is still 2, not 0, and
`errCode` is still `other 7`, not `smSuccess`. -/
theorem C13_init_reset_counterexample :
    InitValid (some 0) mem0 desc0 tbl0 acts0 grds0 lks0 ∧
    ∃ m' d', FwSmInit (some 0) mem0 = some m' ∧ deref m'.descs (some 0) = some d' ∧
      d'.curState = 2 ∧ d'.curState ≠ 0 ∧
      d'.errCode = FwSmErrCode.other 7 ∧ d'.errCode ≠ FwSmErrCode.smSuccess :=
  ⟨⟨rfl, rfl, rfl, rfl, rfl, by decide, by decide, by decide, by decide, by decide,
      by decide, by decide, by decide⟩,
    _, _, rfl, rfl, rfl, by decide, rfl, by decide⟩

/-- C13, amended: `FwSmInit` returns and leaves `curState` and `errCode` of the
descriptor as they were before the call; so the descriptor is in the initial
state and without error after the call when, and only when, it was so before
the call. -/
theorem C13_init_keeps_state_and_error (smDesc : Ptr) (m : Mem) (d : FwSmDesc)
    (t : SmBaseDesc) (acts : List (Option FwSmAction)) (grds : List (Option FwSmGuard))
    (lks : List Ptr) (hv : InitValid smDesc m d t acts grds lks) :
    ∃ m' d', FwSmInit smDesc m = some m' ∧ deref m'.descs smDesc = some d' ∧
      d'.curState = d.curState ∧ d'.errCode = d.errCode ∧
      ((d'.curState = 0 ∧ d'.errCode = FwSmErrCode.smSuccess) ↔
        (d.curState = 0 ∧ d.errCode = FwSmErrCode.smSuccess)) :=
  ⟨_, d, FwSmInit_eq hv, hv.desc, rfl, rfl, Iff.rfl⟩

/-- C13, amended, at `mem1`: `desc4`, in state 0 and without error before the
call. -/
theorem C13_init_keeps_state_and_error_witness :
    InitValid (some 0) mem1 desc4 tbl1 acts4 grds4 lks4 ∧
    ∃ m' d', FwSmInit (some 0) mem1 = some m' ∧ deref m'.descs (some 0) = some d' ∧
      d'.curState = desc4.curState ∧ d'.errCode = desc4.errCode ∧
      ((d'.curState = 0 ∧ d'.errCode = FwSmErrCode.smSuccess) ↔
        (desc4.curState = 0 ∧ desc4.errCode = FwSmErrCode.smSuccess)) := by
  have hv : InitValid (some 0) mem1 desc4 tbl1 acts4 grds4 lks4 :=
    ⟨rfl, rfl, rfl, rfl, rfl, by decide, by decide, by decide, by decide, by decide,
      by decide, by decide, by decide⟩
  exact ⟨hv, C13_init_keeps_state_and_error (some 0) mem1 desc4 tbl1 acts4 grds4 lks4 hv⟩

/-! ## Rebinding a slot of the base after a derivation -/

/-- C15, as stated, fails at `mem0`: the base `desc0` carries the error code
`other 7`, the sizes of the candidate `desc1` match, and after `FwSmInitDer`
the candidate's `errCode` is `other 7`, none of the three values. -/
theorem C15_derived_errCode_counterexample :
    DerValid (some 1) (some 0) mem0 desc1 desc0 tbl0 acts1 acts0 grds1 grds0 lks1 ∧
    ∃ m' dc', FwSmInitDer (some 1) (some 0) mem0 = some m' ∧
      deref m'.descs (some 1) = some dc' ∧ dc'.errCode = FwSmErrCode.other 7 ∧
      ¬ (dc'.errCode = FwSmErrCode.smSuccess ∨
         dc'.errCode = FwSmErrCode.smWrongNOfActions ∨
         dc'.errCode = FwSmErrCode.smWrongNOfGuards) :=
  ⟨⟨rfl, rfl, rfl, rfl, rfl, rfl, rfl, rfl, by decide, by decide, by decide, by decide,
      by decide⟩,
    _, _, rfl, rfl, rfl, by decide⟩

/-- C15, amended: for every candidate and base, with structural validity asked
only when both size checks pass, `FwSmInitDer` returns and the candidate's
`errCode` is then `smWrongNOfActions` if the `nOfActions` differ,
`smWrongNOfGuards` if they agree and the `nOfGuards` differ, and otherwise the
`errCode` the base had at the call, whatever code that is. -/
theorem C15_derived_errCode (smDesc smDescBase : Ptr) (m : Mem)
    (dc db : FwSmDesc) (t : SmBaseDesc) (cacts bacts : List (Option FwSmAction))
    (cgrds bgrds : List (Option FwSmGuard)) (lks : List Ptr)
    (hc : deref m.descs smDesc = some dc) (hb : deref m.descs smDescBase = some db)
    (hv : dc.nOfActions = db.nOfActions → dc.nOfGuards = db.nOfGuards →
      DerValid smDesc smDescBase m dc db t cacts bacts cgrds bgrds lks) :
    ∃ m' dc', FwSmInitDer smDesc smDescBase m = some m' ∧
      deref m'.descs smDesc = some dc' ∧
      dc'.errCode =
        (if dc.nOfActions ≠ db.nOfActions then FwSmErrCode.smWrongNOfActions
         else if dc.nOfGuards ≠ db.nOfGuards then FwSmErrCode.smWrongNOfGuards
         else db.errCode) ∧
      (dc'.errCode = FwSmErrCode.smWrongNOfActions ∨
       dc'.errCode = FwSmErrCode.smWrongNOfGuards ∨
       dc'.errCode = db.errCode) := by
  by_cases hA : dc.nOfActions = db.nOfActions
  · by_cases hG : dc.nOfGuards = db.nOfGuards
    · have hv2 := hv hA hG
      refine ⟨_, _, FwSmInitDer_eq hv2 hA hG, derMem_cand hv2, ?_, Or.inr (Or.inr rfl)⟩
      rw [if_neg (fun h => h hA), if_neg (fun h => h hG)]
    · refine ⟨_, _, FwSmInitDer_wrongGuards hc hb hA hG, deref_setAt_same hc _, ?_,
        Or.inr (Or.inl rfl)⟩
      rw [if_neg (fun h => h hA), if_pos hG]
  · refine ⟨_, _, FwSmInitDer_wrongActions hc hb hA, deref_setAt_same hc _, ?_,
      Or.inl rfl⟩
    rw [if_pos hA]

/-- C15, amended, at `mem0`: candidate `desc1` derived from base `desc0`. -/
theorem C15_derived_errCode_witness :
    deref mem0.descs (some 1) = some desc1 ∧ deref mem0.descs (some 0) = some desc0 ∧
    DerValid (some 1) (some 0) mem0 desc1 desc0 tbl0 acts1 acts0 grds1 grds0 lks1 ∧
    ∃ m' dc', FwSmInitDer (some 1) (some 0) mem0 = some m' ∧
      deref m'.descs (some 1) = some dc' ∧
      dc'.errCode =
        (if desc1.nOfActions ≠ desc0.nOfActions then FwSmErrCode.smWrongNOfActions
         else if desc1.nOfGuards ≠ desc0.nOfGuards then FwSmErrCode.smWrongNOfGuards
         else desc0.errCode) ∧
      (dc'.errCode = FwSmErrCode.smWrongNOfActions ∨
       dc'.errCode = FwSmErrCode.smWrongNOfGuards ∨
       dc'.errCode = desc0.errCode) := by
  have hv : DerValid (some 1) (some 0) mem0 desc1 desc0 tbl0 acts1 acts0 grds1 grds0 lks1 :=
    ⟨rfl, rfl, rfl, rfl, rfl, rfl, rfl, rfl, by decide, by decide, by decide, by decide,
      by decide⟩
  exact ⟨rfl, rfl, hv,
    C15_derived_errCode (some 1) (some 0) mem0 desc1 desc0 tbl0 acts1 acts0 grds1 grds0
      lks1 rfl rfl (fun _ _ => hv)⟩

/-! ## Slot 0 through a derivation -/

theorem initMem_slot0 {smDesc : Ptr} {m : Mem} {d : FwSmDesc} {t : SmBaseDesc}
    {acts : List (Option FwSmAction)} {grds : List (Option FwSmGuard)} {lks : List Ptr}
    (hv : InitValid smDesc m d t acts grds lks) :
    readAt (initMem m d t acts grds lks).actions d.smActions 0 =
        some (some FwSmAction.SmDummyAction) ∧
    readAt (initMem m d t acts grds lks).guards d.smGuards 0 =
        some (some FwSmGuard.SmDummyGuard) := by
  constructor
  · simp only [initMem]
    rw [readAt_setAt_same hv.actions]
    exact patched_slot0 _ _ hv.actions_pos
  · simp only [initMem]
    rw [readAt_setAt_same hv.guards]
    exact patched_slot0 _ _ hv.guards_pos

/-- C16: slot 0 stays the built-in default through a derivation.  Let the base
have `nOfActions ≥ 1` and `nOfGuards ≥ 1` and the candidate matching counts.
If the memory at the call is the one `FwSmInit` on the base has produced, or,
more generally, if slot 0 of the base's action array is `SmDummyAction` and
slot 0 of its guard array is `SmDummyGuard`, then `FwSmInitDer` returns and
slot 0 of the candidate's action array is `SmDummyAction` and slot 0 of its
guard array is `SmDummyGuard`. -/
theorem C16_slot0_through_derivation (smDesc smDescBase : Ptr) (m : Mem)
    (dc db : FwSmDesc) (t : SmBaseDesc) (cacts bacts : List (Option FwSmAction))
    (cgrds bgrds : List (Option FwSmGuard)) (lks : List Ptr)
    (hv : DerValid smDesc smDescBase m dc db t cacts bacts cgrds bgrds lks)
    (hA : dc.nOfActions = db.nOfActions) (hG : dc.nOfGuards = db.nOfGuards)
    (hposA : 1 ≤ db.nOfActions) (hposG : 1 ≤ db.nOfGuards)
    (hbase :
      (∃ m0 t0 a0 g0 l0, InitValid smDescBase m0 db t0 a0 g0 l0 ∧
        FwSmInit smDescBase m0 = some m) ∨
      (readAt m.actions db.smActions 0 = some (some FwSmAction.SmDummyAction) ∧
       readAt m.guards db.smGuards 0 = some (some FwSmGuard.SmDummyGuard))) :
    ∃ m' dc', FwSmInitDer smDesc smDescBase m = some m' ∧
      deref m'.descs smDesc = some dc' ∧
      readAt m'.actions dc'.smActions 0 = some (some FwSmAction.SmDummyAction) ∧
      readAt m'.guards dc'.smGuards 0 = some (some FwSmGuard.SmDummyGuard) := by
  have hslot : readAt m.actions db.smActions 0 = some (some FwSmAction.SmDummyAction) ∧
      readAt m.guards db.smGuards 0 = some (some FwSmGuard.SmDummyGuard) := by
    rcases hbase with ⟨m0, t0, a0, g0, l0, hi, hrun⟩ | h
    · rw [FwSmInit_eq hi] at hrun
      have hm : initMem m0 db t0 a0 g0 l0 = m := Option.some.inj hrun
      rw [← hm]
      exact initMem_slot0 hi
    · exact h
  have hca := hv.candActions_len
  have hba := hv.baseActions_len
  have hcg := hv.candGuards_len
  have hbg := hv.baseGuards_len
  have ha := copied_read hv.candActions hv.baseActions
    (show 0 < dc.nOfActions.toNat by omega) (by omega) (by omega)
  have hg := copied_read hv.candGuards hv.baseGuards
    (show 0 < dc.nOfGuards.toNat by omega) (by omega) (by omega)
  refine ⟨_, _, FwSmInitDer_eq hv hA hG, derMem_cand hv, ?_, ?_⟩
  · rw [← hslot.1, ha.1]
    exact ha.2.1
  · rw [← hslot.2, hg.1]
    exact hg.2.1

/-- C16 at `mem0i`, the memory `FwSmInit` on `desc0` produces from `mem0`:
candidate `desc1` derived from base `desc0`. -/
theorem C16_slot0_through_derivation_witness :
    DerValid (some 1) (some 0) mem0i desc1 desc0 tbl0i acts1 acts0i grds1 grds0i lks1 ∧
    InitValid (some 0) mem0 desc0 tbl0 acts0 grds0 lks0 ∧
    FwSmInit (some 0) mem0 = some mem0i ∧
    ∃ m' dc', FwSmInitDer (some 1) (some 0) mem0i = some m' ∧
      deref m'.descs (some 1) = some dc' ∧
      readAt m'.actions dc'.smActions 0 = some (some FwSmAction.SmDummyAction) ∧
      readAt m'.guards dc'.smGuards 0 = some (some FwSmGuard.SmDummyGuard) := by
  have hv : DerValid (some 1) (some 0) mem0i desc1 desc0 tbl0i acts1 acts0i grds1 grds0i
      lks1 :=
    ⟨rfl, rfl, rfl, rfl, rfl, rfl, rfl, rfl, by decide, by decide, by decide, by decide,
      by decide⟩
  have hi : InitValid (some 0) mem0 desc0 tbl0 acts0 grds0 lks0 :=
    ⟨rfl, rfl, rfl, rfl, rfl, by decide, by decide, by decide, by decide, by decide,
      by decide, by decide, by decide⟩
  have hrun : FwSmInit (some 0) mem0 = some mem0i := by decide
  exact ⟨hv, hi, hrun,
    C16_slot0_through_derivation (some 1) (some 0) mem0i desc1 desc0 tbl0i acts1 acts0i
      grds1 grds0i lks1 hv (by decide) (by decide) (by decide) (by decide)
      (Or.inl ⟨mem0, tbl0, acts0, grds0, lks0, hi, hrun⟩)⟩

/-! ## Array bounds -/

theorem forLoop_preserves {σ : Type} (P : σ → Prop) (body : Nat → σ → Option σ)
    (hbody : ∀ i s s', body i s = some s' → P s → P s') :
    ∀ (n i : Nat) (s s' : σ), forLoop body i n s = some s' → P s → P s' := by
  intro n
  induction n with
  | zero =>
    intro i s s' h hP
    simp only [forLoop, Option.some.injEq] at h
    rw [← h]
    exact hP
  | succ n ih =>
    intro i s s' h hP
    simp only [forLoop, Option.bind_eq_some] at h
    obtain ⟨s1, h1, h2⟩ := h
    exact ih (i + 1) s1 s' h2 (hbody i s s1 h1 hP)

theorem writeAt_some {α : Type} {heap heap' : List (List α)} {p : Ptr} {i : Nat} {v : α}
    (h : writeAt heap p i v = some heap') :
    ∃ arr, deref heap p = some arr ∧ i < arr.length := by
  simp only [writeAt, Option.bind_eq_some] at h
  obtain ⟨arr, harr, h2⟩ := h
  by_cases hi : i < arr.length
  · exact ⟨arr, harr, hi⟩
  · rw [if_neg hi] at h2
    cases h2

theorem setPStateCursor_frame {b : Ptr} {i : Nat} {s s' : Mem}
    (h : setPStateCursor b i s = some s') :
    s'.descs = s.descs ∧ s'.actions = s.actions ∧ s'.guards = s.guards := by
  simp only [setPStateCursor, Option.bind_eq_some, Option.some.injEq] at h
  obtain ⟨_, _, _, _, _, _, rfl⟩ := h
  exact ⟨rfl, rfl, rfl⟩

theorem setCStateCursor_frame {b : Ptr} {i : Nat} {s s' : Mem}
    (h : setCStateCursor b i s = some s') :
    s'.descs = s.descs ∧ s'.actions = s.actions ∧ s'.guards = s.guards := by
  simp only [setCStateCursor, Option.bind_eq_some, Option.some.injEq] at h
  obtain ⟨_, _, _, _, _, _, rfl⟩ := h
  exact ⟨rfl, rfl, rfl⟩

theorem setTransAction_frame {b : Ptr} {i : Nat} {s s' : Mem}
    (h : setTransAction b i s = some s') :
    s'.descs = s.descs ∧ s'.actions = s.actions ∧ s'.guards = s.guards := by
  simp only [setTransAction, Option.bind_eq_some, Option.some.injEq] at h
  obtain ⟨_, _, _, _, _, _, rfl⟩ := h
  exact ⟨rfl, rfl, rfl⟩

theorem clearLink_frame {p : Ptr} {i : Nat} {s s' : Mem}
    (h : clearLink p i s = some s') :
    s'.descs = s.descs ∧ s'.actions = s.actions ∧ s'.guards = s.guards := by
  simp only [clearLink, Option.bind_eq_some, Option.some.injEq] at h
  obtain ⟨_, _, _, _, rfl⟩ := h
  exact ⟨rfl, rfl, rfl⟩

theorem setAction_some {p : Ptr} {i : Nat} {v : Option FwSmAction} {s s' : Mem}
    (h : setAction p i v s = some s') :
    s'.descs = s.descs ∧ s'.guards = s.guards ∧
      ∃ d arr, deref s.descs p = some d ∧ deref s.actions d.smActions = some arr ∧
        i < arr.length := by
  simp only [setAction, Option.bind_eq_some, Option.some.injEq] at h
  obtain ⟨d, hd, _, hw, rfl⟩ := h
  obtain ⟨arr, harr, hi⟩ := writeAt_some hw
  exact ⟨rfl, rfl, d, arr, hd, harr, hi⟩

theorem setGuard_some {p : Ptr} {i : Nat} {v : Option FwSmGuard} {s s' : Mem}
    (h : setGuard p i v s = some s') :
    ∃ d arr, deref s.descs p = some d ∧ deref s.guards d.smGuards = some arr ∧
      i < arr.length := by
  simp only [setGuard, Option.bind_eq_some, Option.some.injEq] at h
  obtain ⟨d, hd, _, hw, rfl⟩ := h
  obtain ⟨arr, harr, hi⟩ := writeAt_some hw
  exact ⟨d, arr, hd, harr, hi⟩

theorem FwSmInit_some_slot0 {smDesc : Ptr} {m m' : Mem} (h : FwSmInit smDesc m = some m') :
    ∃ d acts grds, deref m.descs smDesc = some d ∧
      deref m.actions d.smActions = some acts ∧ 0 < acts.length ∧
      deref m.guards d.smGuards = some grds ∧ 0 < grds.length := by
  simp only [FwSmInit, Option.bind_eq_some] at h
  obtain ⟨d, hd, t, _, m1, h1, m2, h2, m3, h3, m4, h4, m5, h5, m6, h6, _⟩ := h
  have f1 := forLoop_preserves
    (fun s : Mem => s.descs = m.descs ∧ s.actions = m.actions ∧ s.guards = m.guards) _
    (by
      intro i s s' hb hP
      simp only [Option.bind_eq_some] at hb
      obtain ⟨s1, hb1, hb2⟩ := hb
      have e1 := setPStateCursor_frame hb1
      have e2 := clearLink_frame hb2
      exact ⟨by rw [e2.1, e1.1, hP.1], by rw [e2.2.1, e1.2.1, hP.2.1],
        by rw [e2.2.2, e1.2.2, hP.2.2]⟩)
    _ _ _ _ h1 ⟨rfl, rfl, rfl⟩
  have f2 := forLoop_preserves
    (fun s : Mem => s.descs = m.descs ∧ s.actions = m.actions ∧ s.guards = m.guards) _
    (by
      intro i s s' hb hP
      have e1 := setCStateCursor_frame hb
      exact ⟨by rw [e1.1, hP.1], by rw [e1.2.1, hP.2.1], by rw [e1.2.2, hP.2.2]⟩)
    _ _ _ _ h2 f1
  have f3 := forLoop_preserves
    (fun s : Mem => s.descs = m.descs ∧ s.actions = m.actions ∧ s.guards = m.guards) _
    (by
      intro i s s' hb hP
      have e1 := setTransAction_frame hb
      exact ⟨by rw [e1.1, hP.1], by rw [e1.2.1, hP.2.1], by rw [e1.2.2, hP.2.2]⟩)
    _ _ _ _ h3 f2
  obtain ⟨g1, g2, d1, acts, hd1, hacts, hlen⟩ := setAction_some h4
  have f5 := forLoop_preserves
    (fun s : Mem => s.descs = m.descs ∧ s.guards = m.guards) _
    (by
      intro i s s' hb hP
      have e1 := setAction_some hb
      exact ⟨by rw [e1.1, hP.1], by rw [e1.2.1, hP.2]⟩)
    _ _ _ _ h5 ⟨by rw [g1, f3.1], by rw [g2, f3.2.2]⟩
  obtain ⟨d2, grds, hd2, hgrds, hglen⟩ := setGuard_some h6
  rw [f3.1, hd] at hd1
  cases hd1
  rw [f5.1, hd] at hd2
  cases hd2
  rw [f3.2.1] at hacts
  rw [f5.2] at hgrds
  exact ⟨d, acts, grds, hd, hacts, hlen, hgrds, hglen⟩

/-- C17: under structural validity both functions stay within the bounds of
every array and return.  When the arrays of the descriptor and of its table
have the numbers of entries their counts declare (and the link array at least
`nOfPStates` entries), `FwSmInit` returns a memory, i.e. makes no access out
of bounds, exactly when `nOfActions ≥ 1` and `nOfGuards ≥ 1`: then every
access is in bounds, and otherwise the write to slot 0 is not.  When the
descriptors and arrays are valid for a derivation, `FwSmInitDer` returns a
memory, whether the size checks pass or fail. -/
theorem C17_in_bounds (smDesc : Ptr) (m : Mem) (d : FwSmDesc) (t : SmBaseDesc)
    (acts : List (Option FwSmAction)) (grds : List (Option FwSmGuard)) (lks : List Ptr)
    (smDesc2 smDescBase : Ptr) (m2 : Mem) (dc db : FwSmDesc) (t2 : SmBaseDesc)
    (cacts bacts : List (Option FwSmAction)) (cgrds bgrds : List (Option FwSmGuard))
    (lks2 : List Ptr)
    (hs : SizedAsDeclared smDesc m d t acts grds lks)
    (hv : DerValid smDesc2 smDescBase m2 dc db t2 cacts bacts cgrds bgrds lks2) :
    ((∃ m', FwSmInit smDesc m = some m') ↔ (1 ≤ d.nOfActions ∧ 1 ≤ d.nOfGuards)) ∧
    (∃ m2', FwSmInitDer smDesc2 smDescBase m2 = some m2') := by
  obtain ⟨h1, h2, h3, h4, h5, b1, b2, b3, b4, b5, b6⟩ := hs
  refine ⟨⟨?_, ?_⟩, ?_⟩
  · rintro ⟨m', hm'⟩
    obtain ⟨d1, acts1, grds1, hd1, ha1, hl1, hg1, hgl1⟩ := FwSmInit_some_slot0 hm'
    rw [h1] at hd1
    cases hd1
    rw [h3] at ha1
    cases ha1
    rw [h4] at hg1
    cases hg1
    omega
  · rintro ⟨hA, hG⟩
    exact ⟨_, FwSmInit_eq ⟨h1, h2, h3, h4, h5, by omega, by omega, by omega, b4, by omega,
      by omega, by omega, by omega⟩⟩
  · by_cases hA : dc.nOfActions = db.nOfActions
    · by_cases hG : dc.nOfGuards = db.nOfGuards
      · exact ⟨_, FwSmInitDer_eq hv hA hG⟩
      · exact ⟨_, FwSmInitDer_wrongGuards hv.cand hv.base hA hG⟩
    · exact ⟨_, FwSmInitDer_wrongActions hv.cand hv.base hA⟩

/-- C17 at `mem0`: `FwSmInit` on `desc0` and `FwSmInitDer` of `desc1` from
`desc0`. -/
theorem C17_in_bounds_witness :
    SizedAsDeclared (some 0) mem0 desc0 tbl0 acts0 grds0 lks0 ∧
    DerValid (some 1) (some 0) mem0 desc1 desc0 tbl0 acts1 acts0 grds1 grds0 lks1 ∧
    ((∃ m', FwSmInit (some 0) mem0 = some m') ↔
      (1 ≤ desc0.nOfActions ∧ 1 ≤ desc0.nOfGuards)) ∧
    (∃ m2', FwSmInitDer (some 1) (some 0) mem0 = some m2') := by
  have hs : SizedAsDeclared (some 0) mem0 desc0 tbl0 acts0 grds0 lks0 :=
    ⟨rfl, rfl, rfl, rfl, rfl, by decide, by decide, by decide, by decide, by decide,
      by decide⟩
  have hv : DerValid (some 1) (some 0) mem0 desc1 desc0 tbl0 acts1 acts0 grds1 grds0 lks1 :=
    ⟨rfl, rfl, rfl, rfl, rfl, rfl, rfl, rfl, by decide, by decide, by decide, by decide,
      by decide⟩
  exact ⟨hs, hv,
    C17_in_bounds (some 0) mem0 desc0 tbl0 acts0 grds0 lks0 (some 1) (some 0) mem0 desc1
      desc0 tbl0 acts1 acts0 grds1 grds0 lks1 hs hv⟩

/-! ## The base and its table across a derivation -/

end FwSm
